import Mathlib

/-!
Shallow embedding of the DataCleaner class from src/pyhton/data_cleaning.py.

Modelling conventions:
* A pandas DataFrame is a Table: a schema (ordered column names with dtypes)
  plus a list of rows, each row a list of cells.
* Cell values: the pandas missing marker (NaN/NaT/None) is Cell.na; floats and
  ints are modelled as exact rationals; Python strings are modelled as lists of
  Unicode codepoints; datetimes as a Nat encoding of the calendar date.
* String case mapping and whitespace are modelled over the ASCII range; this is
  the range exercised by the repository data and the claims.
* Log messages are modelled structurally (constructor plus the data that the
  Python code interpolates into the f-string).
-/

namespace FacilityClean

/-- Codepoint string: a Python string as a list of Unicode codepoints. -/
abbrev CStr := List Nat

/-- Convert a Lean string literal to its codepoint list. -/
def cs (s : String) : CStr := s.toList.map Char.toNat

/-- One cell of a DataFrame: missing marker, number, string, or datetime. -/
inductive Cell where
  | na : Cell
  | num : ℚ → Cell
  | str : CStr → Cell
  | date : Nat → Cell
deriving DecidableEq

/-- pandas column dtype, as used by select_dtypes and the dtype checks. -/
inductive DType where
  | int64 : DType
  | float64 : DType
  | object : DType
  | datetime64 : DType
deriving DecidableEq

/-- Column metadata: name and dtype. -/
structure ColInfo where
  cname : CStr
  dtype : DType
deriving DecidableEq

/-- A DataFrame: column metadata plus rows of cells. -/
structure Table where
  schema : List ColInfo
  rows : List (List Cell)
deriving DecidableEq

/-- A log entry of DataCleaner.log, modelled structurally: each constructor
corresponds to one f-string in the source, carrying the interpolated data. -/
inductive Msg where
  | removedDuplicates : Nat → Msg
  | noMissing : Msg
  | foundMissing : Nat → Msg
  | filledNumeric : CStr → Msg
  | filledCategorical : CStr → Msg
  | droppedMissing : Msg
  | standardizedText : CStr → Msg
  | removedNegative : Nat → CStr → Msg
  | flaggedOutliers : Nat → CStr → Msg
  | foundInvalidDates : Nat → CStr → Msg
  | parsedDatetime : CStr → Msg
  | couldNotParse : CStr → Msg
  | warnDuplicateIds : Nat → CStr → Msg
  | warnMissingIds : Nat → CStr → Msg
  | appliedMapping : CStr → Msg
deriving DecidableEq

/-- Python runtime errors that the embedded operations can raise. -/
inductive PyErr where
  | zeroDivision : PyErr
deriving DecidableEq

/-- The strategy argument of handle_missing_values. -/
inductive Strategy where
  | auto | drop | fill_mean | fill_median | fill_mode | fill_forward
deriving DecidableEq

/-- The DataCleaner object: the owned DataFrame plus the cleaning_report log. -/
structure Cleaner where
  df : Table
  log : List Msg
deriving DecidableEq

/-! ### Character and string helpers (Python str methods, ASCII range) -/

/-- Whitespace codepoints stripped by Python str.strip (ASCII range). -/
def isSpaceN (n : Nat) : Bool :=
  n == 9 || n == 10 || n == 11 || n == 12 || n == 13 || n == 32

/-- Cased letter in the ASCII range (models a cased character for str.title). -/
def isAlphaN (n : Nat) : Bool :=
  (decide (65 ≤ n) && decide (n ≤ 90)) || (decide (97 ≤ n) && decide (n ≤ 122))

/-- ASCII uppercase mapping. -/
def upN (n : Nat) : Nat := if 97 ≤ n ∧ n ≤ 122 then n - 32 else n

/-- ASCII lowercase mapping. -/
def lowN (n : Nat) : Nat := if 65 ≤ n ∧ n ≤ 90 then n + 32 else n

/-- Python str.strip: drop leading and trailing whitespace. -/
def stripL (s : CStr) : CStr :=
  (((s.dropWhile isSpaceN).reverse.dropWhile isSpaceN)).reverse

/-- Worker for str.title: the Bool records whether the previous character was
cased, in which case a cased character is lowercased, else uppercased. -/
def titleAux : Bool → CStr → CStr
  | _, [] => []
  | prev, c :: rest =>
      if isAlphaN c then
        (if prev then lowN c else upN c) :: titleAux true rest
      else
        c :: titleAux false rest

/-- Python str.title. -/
def titleL (s : CStr) : CStr := titleAux false s

/-- Boolean list-prefix test. -/
def isPrefixL : List Nat → List Nat → Bool
  | [], _ => true
  | _ :: _, [] => false
  | a :: as, b :: bs => a == b && isPrefixL as bs

/-- Boolean list-infix test: Python substring containment. -/
def isInfixL (p : List Nat) : List Nat → Bool
  | [] => isPrefixL p []
  | l@(_ :: t) => isPrefixL p l || isInfixL p t

/-- Boolean list-suffix test: Python str.endswith. -/
def isSuffixL (p l : List Nat) : Bool := isPrefixL p.reverse l.reverse

/-- Python re.sub of a whitespace run by a single space (code 32). -/
def collapseWs : CStr → CStr
  | [] => []
  | c :: rest =>
      if isSpaceN c then
        32 :: collapseWs (rest.dropWhile isSpaceN)
      else
        c :: collapseWs rest
  termination_by l => l.length
  decreasing_by
    all_goals simp only [List.length_cons]
    · exact Nat.lt_succ_of_le (List.IsSuffix.sublist (List.dropWhile_suffix _)).length_le
    · exact Nat.lt_succ_self _

/-! ### Cell helpers -/

/-- Apply str.strip to a string cell, pass anything else through. -/
def stripCell : Cell → Cell
  | .str s => .str (stripL s)
  | c => c

/-- Apply str.title to a string cell, pass anything else through. -/
def titleCell : Cell → Cell
  | .str s => .str (titleL s)
  | c => c

/-- pandas fillna with value v at one cell. -/
def fillWith (v : Cell) : Cell → Cell
  | .na => v
  | c => c

/-- Number of missing cells in a list (pandas isnull().sum() on a column). -/
def countNa (l : List Cell) : Nat := l.countP (fun c => decide (c = Cell.na))

/-- Number of present (non-missing) cells. -/
def countPresent (l : List Cell) : Nat := l.countP (fun c => decide (c ≠ Cell.na))

/-- Numeric value of a cell, if any. -/
def numOf : Cell → Option ℚ
  | .num q => some q
  | _ => none

/-- pandas comparison cell < 0: False on the missing marker. -/
def cellNeg : Cell → Bool
  | .num q => decide (q < 0)
  | _ => false

/-- pandas comparison cell >= 0: False on the missing marker, so filtering a
column by this predicate also drops rows whose value is missing. -/
def cellGeZero : Cell → Bool
  | .num q => decide (0 ≤ q)
  | _ => false

/-- pandas Series.median with skipna: sort the present numeric values, take the
middle one, or the mean of the two middle ones; NaN when no numeric value. -/
def medianCell (l : List Cell) : Cell :=
  let qs := (l.filterMap numOf).insertionSort (· ≤ ·)
  if qs.length = 0 then Cell.na
  else if qs.length % 2 = 1 then Cell.num (qs.getD (qs.length / 2) 0)
  else Cell.num ((qs.getD (qs.length / 2 - 1) 0 + qs.getD (qs.length / 2) 0) / 2)

/-- Occurrences of one cell value in a list. -/
def countC (l : List Cell) (v : Cell) : Nat := l.countP (fun c => decide (c = v))

/-- pandas Series.mode()[0]: a most frequent present value (none when the
column is entirely missing). Ties are broken by a fixed deterministic choice,
modelling the sorted order pandas uses. -/
def modeCell (l : List Cell) : Option Cell :=
  let present := l.filter (fun c => decide (c ≠ Cell.na))
  match present.dedup with
  | [] => none
  | v :: vs =>
      some (vs.foldl (fun best w => if countC present best < countC present w then w else best) v)

/-! ### Date parsing (pandas to_datetime with errors coerce) -/

/-- Leap year rule of the Gregorian calendar. -/
def isLeap (y : Nat) : Bool := y % 4 == 0 && (y % 100 != 0 || y % 400 == 0)

/-- Days in a month. -/
def daysInMonth (y m : Nat) : Nat :=
  if m = 1 ∨ m = 3 ∨ m = 5 ∨ m = 7 ∨ m = 8 ∨ m = 10 ∨ m = 12 then 31
  else if m = 4 ∨ m = 6 ∨ m = 9 ∨ m = 11 then 30
  else if isLeap y then 29 else 28

/-- Numeric value of a nonempty digit string. -/
def digitsVal (l : List Nat) : Option Nat :=
  if l ≠ [] ∧ l.all (fun c => decide (48 ≤ c) && decide (c ≤ 57)) then
    some (l.foldl (fun a c => a * 10 + (c - 48)) 0)
  else none

/-- Strict parse of an ISO yyyy-mm-dd string to an encoded calendar date.
This models the date grammar accepted by pandas to_datetime on the data of
this repository; the encoding is y * 10000 + m * 100 + d. -/
def parseDateStr (s : CStr) : Option Nat :=
  match s.splitOn 45 with
  | [y, m, d] =>
      match digitsVal y, digitsVal m, digitsVal d with
      | some yv, some mv, some dv =>
          if 1 ≤ mv ∧ mv ≤ 12 ∧ 1 ≤ dv ∧ dv ≤ daysInMonth yv mv then
            some (yv * 10000 + mv * 100 + dv)
          else none
      | _, _, _ => none
  | _ => none

/-- pandas to_datetime with errors coerce, on one cell: missing stays missing,
a datetime stays itself, a number converts via the epoch (the exact value of
the conversion is irrelevant to the claims, only that it succeeds), a string is
strictly parsed and becomes the missing marker on failure. -/
def toDatetimeCell : Cell → Cell
  | .na => .na
  | .date d => .date d
  | .num q => .date q.floor.toNat
  | .str s =>
      match parseDateStr s with
      | some d => .date d
      | none => .na

/-! ### Table helpers -/

/-- Number of columns. -/
def width (t : Table) : Nat := t.schema.length

/-- The rows are rectangular: every row has one cell per schema column. -/
def Rect (t : Table) : Prop := ∀ r ∈ t.rows, r.length = t.schema.length

/-- The cells of column j, read off the rows. -/
def colAt (j : Nat) (rows : List (List Cell)) : List Cell :=
  rows.map (fun r => r.getD j Cell.na)

/-- Update position j of a row, leaving the rest unchanged. -/
def updAt (j : Nat) (f : Cell → Cell) : List Cell → List Cell
  | [] => []
  | c :: rest =>
      match j with
      | 0 => f c :: rest
      | j' + 1 => c :: updAt j' f rest

/-- Apply a cell function to every cell of column j (pandas Series.apply or
fillna assigned back to df[col]). -/
def mapCol (j : Nat) (f : Cell → Cell) (t : Table) : Table :=
  { t with rows := t.rows.map (updAt j f) }

/-- Default column metadata, used only for out-of-range reads. -/
def defCI : ColInfo := { cname := [], dtype := DType.object }

/-- Name of column j. -/
def nameAt (t : Table) (j : Nat) : CStr := (t.schema.getD j defCI).cname

/-- Dtype of column j. -/
def dtypeAt (t : Table) (j : Nat) : DType := (t.schema.getD j defCI).dtype

/-- Index of a named column, if present (the test col in df.columns). -/
def colIndex (schema : List ColInfo) (n : CStr) : Option Nat :=
  match schema with
  | [] => none
  | ci :: rest => if ci.cname = n then some 0 else (colIndex rest n).map (· + 1)

/-- Indices of the columns of object dtype (select_dtypes include object). -/
def objIdxs (schema : List ColInfo) : List Nat :=
  (schema.enum.filter (fun p => p.2.dtype = DType.object)).map Prod.fst

/-- Indices of columns of numeric dtype (select_dtypes include np.number). -/
def numIdxs (schema : List ColInfo) : List Nat :=
  (schema.enum.filter (fun p => p.2.dtype = DType.int64 ∨ p.2.dtype = DType.float64)).map Prod.fst

/-- Whether a dtype is one of int64, float64 (the numeric check of the code). -/
def isNumD (d : DType) : Bool := d = DType.int64 || d = DType.float64

/-- Total number of missing cells of the table (df.isnull().sum().sum()). -/
def countNaTable (rows : List (List Cell)) : Nat := (rows.map countNa).sum

/-! ### remove_duplicates -/

/-- The key a row is compared on: the whole row when subset is None, else the
cells of the named subset columns. -/
def keyOf (schema : List ColInfo) (subset : Option (List CStr)) (r : List Cell) : List Cell :=
  match subset with
  | none => r
  | some names => names.filterMap (fun n => (colIndex schema n).map (fun j => r.getD j Cell.na))

/-- pandas drop_duplicates with keep first: scan the rows front to back,
keeping a row exactly when no earlier row had the same key. The accumulator
holds the keys already seen. -/
def dropDupAux (key : List Cell → List Cell) (seen : List (List Cell)) :
    List (List Cell) → List (List Cell)
  | [] => []
  | r :: rest =>
      if key r ∈ seen then dropDupAux key seen rest
      else r :: dropDupAux key (key r :: seen) rest

/-- pandas df.drop_duplicates(subset=subset) applied to the row list. -/
def dropDuplicates (key : List Cell → List Cell) (rows : List (List Cell)) :
    List (List Cell) :=
  dropDupAux key [] rows

/-- DataCleaner.remove_duplicates: drop duplicate rows, log the removed count
only when it is positive. -/
def remove_duplicates (c : Cleaner) (subset : Option (List CStr)) : Cleaner :=
  let initial := c.df.rows.length
  let rows2 := dropDuplicates (keyOf c.df.schema subset) c.df.rows
  let removed := initial - rows2.length
  { df := { c.df with rows := rows2 },
    log := c.log ++ if 0 < removed then [Msg.removedDuplicates removed] else [] }

/-! ### handle_missing_values -/

/-- One iteration of the auto strategy loop at column j: when the column has
missing cells, numeric dtypes get fillna(median), other dtypes get
fillna(mode()[0]) provided the mode list is nonempty. -/
def autoStep (c : Cleaner) (j : Nat) : Cleaner :=
  let col := colAt j c.df.rows
  if countNa col = 0 then c
  else if isNumD (dtypeAt c.df j) then
    { df := mapCol j (fillWith (medianCell col)) c.df,
      log := c.log ++ [Msg.filledNumeric (nameAt c.df j)] }
  else
    match modeCell col with
    | some m =>
        { df := mapCol j (fillWith m) c.df,
          log := c.log ++ [Msg.filledCategorical (nameAt c.df j)] }
    | none => c

/-- DataCleaner.handle_missing_values: early return when nothing is missing;
auto fills per column; drop removes the rows containing a missing cell; the
remaining declared strategies have no implementation and change nothing. -/
def handle_missing_values (c : Cleaner) (strategy : Strategy) : Cleaner :=
  let missing := countNaTable c.df.rows
  if missing = 0 then { c with log := c.log ++ [Msg.noMissing] }
  else
    let c1 : Cleaner := { c with log := c.log ++ [Msg.foundMissing missing] }
    match strategy with
    | .auto => (List.range (width c.df)).foldl autoStep c1
    | .drop =>
        { df := { c1.df with rows := c1.df.rows.filter (fun r => r.all (fun x => decide (x ≠ Cell.na))) },
          log := c1.log ++ [Msg.droppedMissing] }
    | _ => c1

/-! ### standardize_text_columns -/

/-- Distinct present values of a column (pandas Series.nunique, dropna). -/
def nuniqueCells (l : List Cell) : Nat := (l.filter (fun c => decide (c ≠ Cell.na))).dedup.length

/-- One iteration of the standardize_text_columns loop at object column j:
first strip every string cell, then compute the unique ratio
nunique / len(df) — a ZeroDivisionError on an empty table — and when the
ratio is below one half, title-case every string cell and log. -/
def stdStepE (c : Cleaner) (j : Nat) : Except PyErr Cleaner :=
  let t1 := mapCol j stripCell c.df
  if t1.rows.length = 0 then .error PyErr.zeroDivision
  else
    let tr := colAt j t1.rows
    if 2 * nuniqueCells tr < t1.rows.length then
      .ok { df := mapCol j titleCell t1,
            log := c.log ++ [Msg.standardizedText (nameAt t1 j)] }
    else .ok { c with df := t1 }

/-- DataCleaner.standardize_text_columns over the object-dtype columns. -/
def standardize_text_columns (c : Cleaner) : Except PyErr Cleaner :=
  (objIdxs c.df.schema).foldlM stdStepE c

/-! ### clean_numeric_columns -/

/-- pandas Series.quantile with linear interpolation over the present numeric
values; none when there is no such value (pandas returns NaN there, and every
comparison against it is False). -/
def quantileQ (l : List Cell) (p : ℚ) : Option ℚ :=
  let qs := (l.filterMap numOf).insertionSort (· ≤ ·)
  if qs.length = 0 then none
  else
    let pos : ℚ := p * ((qs.length : ℚ) - 1)
    let i : Nat := pos.floor.toNat
    let frac : ℚ := pos - (i : ℚ)
    if i + 1 < qs.length then
      some (qs.getD i 0 + frac * (qs.getD (i + 1) 0 - qs.getD i 0))
    else some (qs.getD i 0)

/-- The keyword set of clean_numeric_columns. -/
def kwList : List CStr := [cs "id", cs "cost", cs "time", cs "hours", cs "mins", cs "size", cs "floor"]

/-- Case-insensitive keyword containment test on a column name. -/
def hasKw (name : CStr) : Bool := kwList.any (fun k => isInfixL k (name.map lowN))

/-- Outlier count of a column between bounds lb and ub: cells compared as
pandas does, so missing cells never count. -/
def outlierCount (col : List Cell) (lb ub : ℚ) : Nat :=
  col.countP (fun c =>
    match c with
    | .num q => decide (q < lb) || decide (ub < q)
    | _ => false)

/-- One iteration of the clean_numeric_columns loop at numeric column j:
when the name has a keyword and the column has strictly negative values, keep
only the rows whose value compares >= 0 (dropping negative and missing alike)
and log the count of negative values; afterwards compute the IQR bounds on the
surviving column and log a flag-only outlier report when fewer than 5 percent
of the rows fall outside. -/
def cleanStep (c : Cleaner) (j : Nat) : Cleaner :=
  let col := colAt j c.df.rows
  let negc := col.countP cellNeg
  let st1 : Cleaner :=
    if hasKw (nameAt c.df j) ∧ 0 < negc then
      { df := { c.df with rows := c.df.rows.filter (fun r => cellGeZero (r.getD j Cell.na)) },
        log := c.log ++ [Msg.removedNegative negc (nameAt c.df j)] }
    else c
  let col1 := colAt j st1.df.rows
  match quantileQ col1 (1/4), quantileQ col1 (3/4) with
  | some q1, some q3 =>
      let iqr := q3 - q1
      let outliers := outlierCount col1 (q1 - 3 * iqr) (q3 + 3 * iqr)
      if 0 < outliers ∧ (outliers : ℚ) < (st1.df.rows.length : ℚ) * (5/100) then
        { st1 with log := st1.log ++ [Msg.flaggedOutliers outliers (nameAt c.df j)] }
      else st1
  | _, _ => st1

/-- DataCleaner.clean_numeric_columns over the numeric-dtype columns. -/
def clean_numeric_columns (c : Cleaner) : Cleaner :=
  (numIdxs c.df.schema).foldl cleanStep c

/-- Specification-side row effect of one clean_numeric_columns iteration,
written from the words of the amended claim C4: when the column name carries
a keyword and the table as filtered so far holds a strictly negative value in
that column, keep exactly the rows whose value compares >= 0 (so rows whose
value is negative or missing are dropped together); otherwise leave the table
untouched. -/
def negFilterStep (t : Table) (j : Nat) : Table :=
  if hasKw (nameAt t j) = true ∧ 0 < (colAt j t.rows).countP cellNeg then
    { t with rows := t.rows.filter (fun r => cellGeZero (r.getD j Cell.na)) }
  else t

/-- Whether a log entry is a removed-negative-rows message. -/
def isNegMsg : Msg → Bool
  | .removedNegative _ _ => true
  | _ => false

/-- Specification-side removed-negative log entries of clean_numeric_columns:
for each keyword numeric column in processing order, the message carrying the
count of strictly negative values of that column in the table as filtered so
far, when that count is positive. -/
def negFilterMsgs : Table → List Nat → List Msg
  | _, [] => []
  | t, j :: js =>
      (if hasKw (nameAt t j) = true ∧ 0 < (colAt j t.rows).countP cellNeg
       then [Msg.removedNegative ((colAt j t.rows).countP cellNeg) (nameAt t j)]
       else []) ++ negFilterMsgs (negFilterStep t j) js

/-! ### parse_dates -/

/-- Auto-detected date columns: names containing the substring date,
case-insensitively. -/
def autoDateCols (schema : List ColInfo) : List CStr :=
  (schema.filter (fun ci => isInfixL (cs "date") (ci.cname.map lowN))).map ColInfo.cname

/-- One parse_dates iteration for a named column that is present at index j:
coerce every cell with to_datetime (unparseable values become missing), set
the column dtype to datetime64, and log either the invalid count or success.
With errors coerce the conversion itself never raises, so the except branch of
the source is not reachable in the model. -/
def parseStep (c : Cleaner) (j : Nat) : Cleaner :=
  let t1 := mapCol j toDatetimeCell c.df
  let t2 : Table := { t1 with schema := t1.schema.map (fun ci =>
      if ci.cname = nameAt c.df j then { ci with dtype := DType.datetime64 } else ci) }
  let invalid := countNa (colAt j t2.rows)
  if 0 < invalid then
    { df := t2, log := c.log ++ [Msg.foundInvalidDates invalid (nameAt c.df j)] }
  else
    { df := t2, log := c.log ++ [Msg.parsedDatetime (nameAt c.df j)] }

/-- One parse_dates iteration for a given name: resolve it against the
columns, skipping it when absent. -/
def parseName (acc : Cleaner) (n : CStr) : Cleaner :=
  match colIndex acc.df.schema n with
  | some j => parseStep acc j
  | none => acc

/-- DataCleaner.parse_dates: iterate over the given (or auto-detected) column
names, skipping names not present in the table. -/
def parse_dates (c : Cleaner) (dateColumns : Option (List CStr)) : Cleaner :=
  let names := dateColumns.getD (autoDateCols c.df.schema)
  names.foldl parseName c

/-! ### validate_ids -/

/-- Number of entries marked by pandas Series.duplicated with keep first: an
entry counts when an equal value occurs earlier (the missing marker compares
equal to itself there). The accumulator holds the values already seen. -/
def dupMarks (seen : List Cell) : List Cell → Nat
  | [] => 0
  | v :: rest =>
      if v ∈ seen then 1 + dupMarks seen rest
      else dupMarks (v :: seen) rest

/-- Auto-detected id columns: names containing id but not assigned,
case-insensitively. -/
def autoIdCols (schema : List ColInfo) : List CStr :=
  (schema.filter (fun ci =>
    isInfixL (cs "id") (ci.cname.map lowN) && !isInfixL (cs "assigned") (ci.cname.map lowN))).map ColInfo.cname

/-- Whether a column name is treated as a primary identifier. -/
def isPrimaryId (n : CStr) : Bool :=
  isSuffixL (cs "_ID") n || n = cs "Ticket_ID" || n = cs "Cleaner_ID"

/-- One validate_ids iteration for a given name: when the column is present,
warn on duplicates for primary identifier columns, then warn on missing
values; only the log changes. -/
def validateName (acc : Cleaner) (n : CStr) : Cleaner :=
  match colIndex acc.df.schema n with
  | some j =>
      let col := colAt j acc.df.rows
      let dups := dupMarks [] col
      let acc1 := if isPrimaryId n ∧ 0 < dups then
          { acc with log := acc.log ++ [Msg.warnDuplicateIds dups n] }
        else acc
      let miss := countNa col
      if 0 < miss then
        { acc1 with log := acc1.log ++ [Msg.warnMissingIds miss n] }
      else acc1
  | none => acc

/-- DataCleaner.validate_ids: for each listed and present column, warn on
duplicate values of primary identifier columns and warn on missing values;
the table itself is never touched. -/
def validate_ids (c : Cleaner) (idColumns : Option (List CStr)) : Cleaner :=
  let names := idColumns.getD (autoIdCols c.df.schema)
  names.foldl validateName c

/-! ### standardize_categories, remove_extra_whitespace, reset_index -/

/-- pandas Series.replace with an explicit lookup table at one cell. -/
def replaceCell (m : List (Cell × Cell)) (x : Cell) : Cell :=
  match m.lookup x with
  | some v => v
  | none => x

/-- One standardize_categories iteration for a named mapping entry. -/
def catStep (acc : Cleaner) (p : CStr × List (Cell × Cell)) : Cleaner :=
  match colIndex acc.df.schema p.1 with
  | some j =>
      { df := mapCol j (replaceCell p.2) acc.df,
        log := acc.log ++ [Msg.appliedMapping p.1] }
  | none => acc

/-- DataCleaner.standardize_categories: apply each mapping to its column when
present; a None mapping (or an absent column) changes nothing. -/
def standardize_categories (c : Cleaner) (mapping : Option (List (CStr × List (Cell × Cell)))) :
    Cleaner :=
  match mapping with
  | none => c
  | some ms => ms.foldl catStep c

/-- Collapse whitespace runs in a string cell. -/
def collapseCell : Cell → Cell
  | .str s => .str (collapseWs s)
  | c => c

/-- One remove_extra_whitespace iteration at an object column. -/
def wsStep (acc : Cleaner) (j : Nat) : Cleaner :=
  { acc with df := mapCol j collapseCell acc.df }

/-- DataCleaner.remove_extra_whitespace over the object-dtype columns. -/
def remove_extra_whitespace (c : Cleaner) : Cleaner :=
  (objIdxs c.df.schema).foldl wsStep c

/-- DataCleaner.reset_index with drop: the model has no separate index column,
so renumbering the rows leaves the table unchanged. -/
def reset_index (c : Cleaner) : Cleaner := c

/-- Specification-side deduplication, written directly from the words of the
spec: keep the first occurrence of each row, drop the later duplicates, leave
the order otherwise unchanged. -/
def specKeepFirst : List (List Cell) → List (List Cell)
  | [] => []
  | r :: rest => r :: specKeepFirst (rest.filter (fun q => decide (q ≠ r)))
  termination_by l => l.length
  decreasing_by
    simp only [List.length_cons]
    exact Nat.lt_succ_of_le (List.length_filter_le _ _)

/-! ### The auto strategy loop, through the frame lemma -/

/-- Column effect of one auto iteration, as a function of the schema. -/
def autoG (s0 : List ColInfo) (j : Nat) (col : List Cell) : List Cell :=
  if countNa col = 0 then col
  else if isNumD (s0.getD j defCI).dtype then col.map (fillWith (medianCell col))
  else match modeCell col with
       | some m => col.map (fillWith m)
       | none => col

/-- Log effect of one auto iteration. -/
def autoM (s0 : List ColInfo) (j : Nat) (col : List Cell) : List Msg :=
  if countNa col = 0 then []
  else if isNumD (s0.getD j defCI).dtype then [Msg.filledNumeric (s0.getD j defCI).cname]
  else match modeCell col with
       | some _ => [Msg.filledCategorical (s0.getD j defCI).cname]
       | none => []

/-- Invariant threaded through the auto loop. -/
def Pauto (s0 : List ColInfo) (c : Cleaner) : Prop :=
  Rect c.df ∧ c.df.schema = s0

/-- Typing of numeric-dtype columns: in a DataFrame, an int64 or float64
column holds numbers and the missing marker only. -/
def NumWellTyped (t : Table) : Prop :=
  ∀ j, j < width t → isNumD (dtypeAt t j) = true →
    ∀ x ∈ colAt j t.rows, x = Cell.na ∨ ∃ q : ℚ, x = Cell.num q

/-- A concrete table for the claim C2 witness: a float64 column with a
missing value and an object column with a missing value. -/
def c2ex : Cleaner :=
  { df := { schema := [{ cname := cs "A", dtype := DType.float64 },
                       { cname := cs "B", dtype := DType.object }],
            rows := [[Cell.num 1, Cell.na],
                     [Cell.na, Cell.str (cs "x")],
                     [Cell.num 3, Cell.str (cs "x")]] },
    log := [] }

/-- A concrete cleaner for witnesses about remove_duplicates. -/
def c3ex : Cleaner :=
  { df := { schema := [{ cname := cs "X", dtype := DType.float64 }],
            rows := [[Cell.num 1], [Cell.num 2], [Cell.num 1]] },
    log := [] }

/-! ### Claim C9: logging of no-op steps -/

/-- A concrete duplicate-free cleaner: the counterexample to claim C9. -/
def c9ex : Cleaner :=
  { df := { schema := [{ cname := cs "X", dtype := DType.object }],
            rows := [[Cell.str (cs "T1")], [Cell.str (cs "T2")]] },
    log := [] }

/-- The example cleaner of claim C7: a Ticket_ID column with one duplicate. -/
def c7ex : Cleaner :=
  { df := { schema := [{ cname := cs "Ticket_ID", dtype := DType.object }],
            rows := [[Cell.str (cs "T1")], [Cell.str (cs "T1")], [Cell.str (cs "T2")]] },
    log := [] }

/-- A concrete zero-row table with an object column. -/
def c1ex : Cleaner :=
  { df := { schema := [{ cname := cs "Status", dtype := DType.object }], rows := [] },
    log := [] }

/-! ### Claim C10: the Status example of the spec -/

/-- The example table of claim C10. -/
def c10ex : Cleaner :=
  { df := { schema := [{ cname := cs "Status", dtype := DType.object }],
            rows := [[Cell.str (cs " open ")], [Cell.str (cs "OPEN")],
                     [Cell.str (cs "closed")]] },
    log := [] }

/-- The table the code actually produces on the claim C10 example. -/
def c10res : Cleaner :=
  { df := { schema := [{ cname := cs "Status", dtype := DType.object }],
            rows := [[Cell.str (cs "open")], [Cell.str (cs "OPEN")],
                     [Cell.str (cs "closed")]] },
    log := [] }

/-- The concrete counterexample input to claim C4 as stated: a float64
keyword column Cost = [-5, missing, 10]. -/
def c4ex : Cleaner :=
  { df := { schema := [{ cname := cs "Cost", dtype := DType.float64 }],
            rows := [[Cell.num (-5)], [Cell.na], [Cell.num 10]] },
    log := [] }

/-- The Cost = [-5, 10, 20] example of the spec, which does hold. -/
def c4ex2 : Cleaner :=
  { df := { schema := [{ cname := cs "Cost", dtype := DType.float64 }],
            rows := [[Cell.num (-5)], [Cell.num 10], [Cell.num 20]] },
    log := [] }

/-! ### Claim C5: concrete instances -/

/-- The counterexample input to the invalid-count wording of claim C5:
a Date column holding a missing value, an unparseable string and a valid
date. -/
def c5ex : Cleaner :=
  { df := { schema := [{ cname := cs "Date", dtype := DType.object }],
            rows := [[Cell.na], [Cell.str (cs "not-a-date")],
                     [Cell.str (cs "2024-01-05")]] },
    log := [] }

/-- The example input of the spec for parse_dates. -/
def c5wex : Cleaner :=
  { df := { schema := [{ cname := cs "Date", dtype := DType.object }],
            rows := [[Cell.str (cs "2024-01-05")], [Cell.str (cs "not-a-date")]] },
    log := [] }

/-- Column effect of one standardize_text_columns iteration: trim, then
title-case exactly when the distinct-to-row-count ratio of the trimmed
column is below one half. -/
def stdG (n : Nat) (col : List Cell) : List Cell :=
  if 2 * nuniqueCells (col.map stripCell) < n then (col.map stripCell).map titleCell
  else col.map stripCell

/-! ### The pure standardize step and the Except fold -/

/-- The successful branch of one standardize_text_columns iteration, taken
whenever the table has at least one row. -/
def stdStepP (c : Cleaner) (j : Nat) : Cleaner :=
  let t1 := mapCol j stripCell c.df
  if 2 * nuniqueCells (colAt j t1.rows) < t1.rows.length then
    { df := mapCol j titleCell t1, log := c.log ++ [Msg.standardizedText (nameAt t1 j)] }
  else { c with df := t1 }

/-- A three-row object column on which title-casing does fire, for the
claim C6 witness. -/
def c6wex : Cleaner :=
  { df := { schema := [{ cname := cs "S", dtype := DType.object }],
            rows := [[Cell.str (cs "a")], [Cell.str (cs "a")], [Cell.str (cs "a")]] },
    log := [] }

/-- The cleaner produced by standardize_text_columns on c6wex. -/
def c6res : Cleaner :=
  { df := { schema := [{ cname := cs "S", dtype := DType.object }],
            rows := [[Cell.str (cs "A")], [Cell.str (cs "A")], [Cell.str (cs "A")]] },
    log := [Msg.standardizedText (cs "S")] }

/-! ### Basic lemmas about rows and columns -/

theorem updAt_length (j : Nat) (f : Cell → Cell) (r : List Cell) :
    (updAt j f r).length = r.length := by
  induction r generalizing j with
  | nil => simp [updAt]
  | cons c rest ih =>
      cases j with
      | zero => rfl
      | succ j' => simp [updAt, ih]

theorem getD_updAt_ne (j k : Nat) (f : Cell → Cell) (r : List Cell) (h : k ≠ j) :
    (updAt j f r).getD k Cell.na = r.getD k Cell.na := by
  induction r generalizing j k with
  | nil => simp [updAt]
  | cons c rest ih =>
      cases j with
      | zero =>
          cases k with
          | zero => exact absurd rfl h
          | succ k' => simp [updAt]
      | succ j' =>
          cases k with
          | zero => simp [updAt]
          | succ k' =>
              simp only [updAt, List.getD_cons_succ]
              exact ih j' k' (fun hk => h (by omega))

theorem getD_updAt_self (j : Nat) (f : Cell → Cell) (r : List Cell) (h : j < r.length) :
    (updAt j f r).getD j Cell.na = f (r.getD j Cell.na) := by
  induction r generalizing j with
  | nil => simp at h
  | cons c rest ih =>
      cases j with
      | zero => rfl
      | succ j' =>
          simp only [updAt, List.getD_cons_succ]
          exact ih j' (by simpa using h)

theorem mapCol_schema (j : Nat) (f : Cell → Cell) (t : Table) :
    (mapCol j f t).schema = t.schema := rfl

theorem mapCol_rows_length (j : Nat) (f : Cell → Cell) (t : Table) :
    (mapCol j f t).rows.length = t.rows.length := by
  simp [mapCol]

theorem rect_mapCol {t : Table} (j : Nat) (f : Cell → Cell) (hr : Rect t) :
    Rect (mapCol j f t) := by
  intro r hmem
  simp only [mapCol, List.mem_map] at hmem
  obtain ⟨r0, hr0, rfl⟩ := hmem
  simpa [updAt_length] using hr r0 hr0

theorem colAt_mapCol_ne {k j : Nat} (f : Cell → Cell) (t : Table) (h : k ≠ j) :
    colAt k (mapCol j f t).rows = colAt k t.rows := by
  simp only [colAt, mapCol, List.map_map]
  exact List.map_congr_left (fun r _ => getD_updAt_ne j k f r h)

theorem colAt_mapCol_self {j : Nat} (f : Cell → Cell) (t : Table)
    (hr : Rect t) (hj : j < width t) :
    colAt j (mapCol j f t).rows = (colAt j t.rows).map f := by
  simp only [colAt, mapCol, List.map_map]
  exact List.map_congr_left (fun r hmem => getD_updAt_self j f r (by rw [hr r hmem]; exact hj))

theorem colAt_length (j : Nat) (rows : List (List Cell)) :
    (colAt j rows).length = rows.length := by simp [colAt]

/-- Column extensionality for rectangular row lists: two row lists of the same
length whose rows all have width w and whose columns agree are equal. -/
theorem rows_ext {w : Nat} (rows1 rows2 : List (List Cell))
    (hlen : rows1.length = rows2.length)
    (h1 : ∀ r ∈ rows1, r.length = w) (h2 : ∀ r ∈ rows2, r.length = w)
    (hcol : ∀ j, j < w → colAt j rows1 = colAt j rows2) : rows1 = rows2 := by
  induction rows1 generalizing rows2 with
  | nil => cases rows2 with
      | nil => rfl
      | cons r2 rest2 => simp at hlen
  | cons r1 rest1 ih =>
      cases rows2 with
      | nil => simp at hlen
      | cons r2 rest2 =>
          have hr1 : r1.length = w := h1 r1 (by simp)
          have hr2 : r2.length = w := h2 r2 (by simp)
          have hhead : r1 = r2 := by
            apply List.ext_getElem (by rw [hr1, hr2])
            intro i hi1 hi2
            have hcj := hcol i (by omega)
            simp only [colAt, List.map_cons, List.cons.injEq] at hcj
            have := hcj.1
            rwa [List.getD_eq_getElem _ _ hi1, List.getD_eq_getElem _ _ hi2] at this
          have htail : rest1 = rest2 := by
            apply ih rest2 (by simpa using hlen)
              (fun r hr => h1 r (by simp [hr])) (fun r hr => h2 r (by simp [hr]))
            intro j hj
            have hcj := hcol j hj
            simp only [colAt, List.map_cons, List.cons.injEq] at hcj
            exact hcj.2
          rw [hhead, htail]

/-! ### Lemmas about the dtype index lists -/

theorem objIdxs_nodup (schema : List ColInfo) : (objIdxs schema).Nodup := by
  have h := List.nodup_enum_map_fst schema
  exact h.sublist (List.Sublist.map Prod.fst (List.filter_sublist _))

theorem numIdxs_nodup (schema : List ColInfo) : (numIdxs schema).Nodup := by
  have h := List.nodup_enum_map_fst schema
  exact h.sublist (List.Sublist.map Prod.fst (List.filter_sublist _))

theorem mem_objIdxs {schema : List ColInfo} {j : Nat} (h : j ∈ objIdxs schema) :
    j < schema.length ∧ (schema.getD j defCI).dtype = DType.object := by
  simp only [objIdxs, List.mem_map, List.mem_filter] at h
  obtain ⟨p, ⟨hp, hd⟩, rfl⟩ := h
  have hg : schema.get? p.1 = some p.2 := List.mem_enum_iff_get?.mp hp
  have hlt : p.1 < schema.length := List.get?_eq_some.mp hg |>.choose
  refine ⟨hlt, ?_⟩
  have : schema.getD p.1 defCI = p.2 := by
    rw [List.getD_eq_getD_get?, hg]; rfl
  rw [this]
  simpa using hd

theorem mem_numIdxs {schema : List ColInfo} {j : Nat} (h : j ∈ numIdxs schema) :
    j < schema.length ∧ isNumD (schema.getD j defCI).dtype = true := by
  simp only [numIdxs, List.mem_map, List.mem_filter] at h
  obtain ⟨p, ⟨hp, hd⟩, rfl⟩ := h
  have hg : schema.get? p.1 = some p.2 := List.mem_enum_iff_get?.mp hp
  have hlt : p.1 < schema.length := List.get?_eq_some.mp hg |>.choose
  refine ⟨hlt, ?_⟩
  have hpd : schema.getD p.1 defCI = p.2 := by
    rw [List.getD_eq_getD_get?, hg]; rfl
  rw [hpd]
  simp only [decide_eq_true_eq] at hd
  rcases hd with h1 | h1 <;> simp [isNumD, h1]

/-! ### Lemmas about drop_duplicates -/

theorem dropDupAux_sublist (key : List Cell → List Cell) (seen rows : List (List Cell)) :
    List.Sublist (dropDupAux key seen rows) rows := by
  induction rows generalizing seen with
  | nil => simp [dropDupAux]
  | cons r rest ih =>
      by_cases h : key r ∈ seen
      · simp only [dropDupAux, if_pos h]
        exact (ih seen).trans (List.sublist_cons_self r rest)
      · simp only [dropDupAux, if_neg h]
        exact (ih (key r :: seen)).cons₂ r

/-- Keep-first deduplication on the full row never keeps a row whose value was
already seen, and its output has no duplicates. -/
theorem dropDupAux_id_nodup (seen rows : List (List Cell)) :
    (dropDupAux (fun r => r) seen rows).Nodup ∧
      ∀ r ∈ dropDupAux (fun r => r) seen rows, r ∉ seen := by
  induction rows generalizing seen with
  | nil => simp [dropDupAux]
  | cons r rest ih =>
      by_cases h : r ∈ seen
      · simpa [dropDupAux, h] using ih seen
      · simp only [dropDupAux, if_neg h]
        obtain ⟨hnd, hout⟩ := ih (r :: seen)
        refine ⟨List.nodup_cons.mpr ⟨fun hmem => (hout r hmem) (by simp), hnd⟩, ?_⟩
        intro x hx
        rcases List.mem_cons.mp hx with rfl | hx'
        · exact h
        · exact fun hs => (hout x hx') (List.mem_cons_of_mem _ hs)

theorem dropDupAux_id_mem (seen rows : List (List Cell)) (r : List Cell) (h : r ∈ rows) :
    r ∈ seen ∨ r ∈ dropDupAux (fun r => r) seen rows := by
  induction rows generalizing seen with
  | nil => simp at h
  | cons a rest ih =>
      by_cases ha : a ∈ seen
      · simp only [dropDupAux, if_pos ha]
        rcases List.mem_cons.mp h with rfl | h'
        · exact Or.inl ha
        · exact ih seen h'
      · simp only [dropDupAux, if_neg ha]
        rcases List.mem_cons.mp h with rfl | h'
        · exact Or.inr (by simp)
        · rcases ih (a :: seen) h' with hs | ho
          · rcases List.mem_cons.mp hs with rfl | hs'
            · exact Or.inr (by simp)
            · exact Or.inl hs'
          · exact Or.inr (List.mem_cons_of_mem _ ho)

theorem specKeepFirst_nil : specKeepFirst [] = [] := by
  rw [specKeepFirst.eq_def]

theorem specKeepFirst_cons (r : List Cell) (rest : List (List Cell)) :
    specKeepFirst (r :: rest) = r :: specKeepFirst (rest.filter (fun q => decide (q ≠ r))) := by
  rw [specKeepFirst.eq_def]

theorem dropDupAux_id_eq_spec (rows : List (List Cell)) (seen : List (List Cell)) :
    dropDupAux (fun r => r) seen rows
      = specKeepFirst (rows.filter (fun q => decide (q ∉ seen))) := by
  induction rows generalizing seen with
  | nil => simp [dropDupAux, specKeepFirst_nil]
  | cons r rest ih =>
      by_cases h : r ∈ seen
      · simp only [dropDupAux, if_pos h, List.filter_cons, decide_eq_true_eq, h,
          not_true_eq_false, decide_False, if_false]
        exact ih seen
      · simp only [dropDupAux, if_neg h, List.filter_cons, decide_eq_true_eq, h,
          not_false_eq_true, decide_True, if_true]
        rw [specKeepFirst_cons, ih (r :: seen), List.filter_filter]
        simp only [if_false]
        congr 2
        apply List.filter_congr
        intro x _
        by_cases hx1 : x ∈ seen <;> by_cases hx2 : x = r <;>
          simp [hx1, hx2, List.mem_cons]

/-! ### Lemmas about median, mode and fillna -/

theorem medianCell_ne_na {l : List Cell} (h : ∃ q : ℚ, Cell.num q ∈ l) :
    medianCell l ≠ Cell.na := by
  obtain ⟨q, hq⟩ := h
  have hmem : q ∈ l.filterMap numOf := List.mem_filterMap.mpr ⟨Cell.num q, hq, rfl⟩
  have hne : (l.filterMap numOf) ≠ [] := fun hnil => by simp [hnil] at hmem
  have hlen : ((l.filterMap numOf).insertionSort (· ≤ ·)).length ≠ 0 := by
    rw [List.length_insertionSort]
    exact fun h0 => hne (List.length_eq_zero.mp h0)
  unfold medianCell
  simp only [if_neg hlen]
  split <;> simp

theorem foldl_pick_mem (present : List Cell) (v : Cell) (vs : List Cell) :
    vs.foldl (fun best w => if countC present best < countC present w then w else best) v
      ∈ v :: vs := by
  induction vs generalizing v with
  | nil => simp
  | cons w ws ih =>
      simp only [List.foldl_cons]
      rcases List.mem_cons.mp (ih (if countC present v < countC present w then w else v)) with
        hv | hm
      · rw [hv]
        split <;> simp
      · exact List.mem_cons_of_mem _ (List.mem_cons_of_mem _ hm)

theorem modeCell_spec {l : List Cell} (h : ∃ c ∈ l, c ≠ Cell.na) :
    ∃ m, modeCell l = some m ∧ m ≠ Cell.na := by
  obtain ⟨c0, hc0, hne⟩ := h
  have hpres : c0 ∈ l.filter (fun c => decide (c ≠ Cell.na)) :=
    List.mem_filter.mpr ⟨hc0, by simpa using hne⟩
  have hded : (l.filter (fun c => decide (c ≠ Cell.na))).dedup ≠ [] := by
    intro hnil
    have hfe := (List.dedup_eq_nil _).mp hnil
    rw [hfe] at hpres
    exact List.not_mem_nil _ hpres
  cases hd : (l.filter (fun c => decide (c ≠ Cell.na))).dedup with
  | nil => exact absurd hd hded
  | cons v vs =>
      have hmode : modeCell l = some (vs.foldl (fun best w =>
          if countC (l.filter (fun c => decide (c ≠ Cell.na))) best
            < countC (l.filter (fun c => decide (c ≠ Cell.na))) w then w else best) v) := by
        simp only [modeCell]
        rw [hd]
      refine ⟨_, hmode, ?_⟩
      have hmem := foldl_pick_mem (l.filter (fun c => decide (c ≠ Cell.na))) v vs
      rw [← hd] at hmem
      have hmf : _ ∈ l.filter (fun c => decide (c ≠ Cell.na)) := List.mem_dedup.mp hmem
      have := (List.mem_filter.mp hmf).2
      simpa using this

theorem countNa_map_fillWith {v : Cell} (hv : v ≠ Cell.na) (l : List Cell) :
    countNa (l.map (fillWith v)) = 0 := by
  rw [countNa, List.countP_eq_zero]
  intro a ha
  simp only [List.mem_map] at ha
  obtain ⟨c, _, rfl⟩ := ha
  cases c <;> simp [fillWith, hv]

/-! ### Lemmas about missing counts -/

theorem countNaTable_cons (r : List Cell) (rest : List (List Cell)) :
    countNaTable (r :: rest) = countNa r + countNaTable rest := by
  simp [countNaTable]

theorem countNa_colAt_le (j : Nat) (rows : List (List Cell))
    (h : ∀ r ∈ rows, j < r.length) :
    countNa (colAt j rows) ≤ countNaTable rows := by
  induction rows with
  | nil => simp [countNa, colAt, countNaTable]
  | cons r rest ih =>
      rw [countNaTable_cons]
      have hcol : colAt j (r :: rest) = r.getD j Cell.na :: colAt j rest := by simp [colAt]
      rw [hcol, countNa, List.countP_cons]
      have htail : countNa (colAt j rest) ≤ countNaTable rest :=
        ih (fun q hq => h q (List.mem_cons_of_mem _ hq))
      have hhead : (if decide (r.getD j Cell.na = Cell.na) = true then 1 else 0) ≤ countNa r := by
        split
        · rename_i hna
          simp only [decide_eq_true_eq] at hna
          have hj : j < r.length := h r (by simp)
          have hmem : r.getD j Cell.na ∈ r := by
            rw [List.getD_eq_getElem _ _ hj]
            exact List.getElem_mem hj
          rw [hna] at hmem
          have : 0 < countNa r := List.countP_pos.mpr ⟨Cell.na, hmem, by simp⟩
          omega
        · exact Nat.zero_le _
      unfold countNa at htail hhead ⊢
      omega

/-! ### A generic frame lemma for the per-column loops

Each of the loops in handle_missing_values (auto), standardize_text_columns
and parse_dates reads only the column it is processing, writes only that
column, and appends log entries computed from that column. The following
lemma captures the effect of such a fold over a duplicate-free index list. -/

theorem opFold_spec
    (stepf : Cleaner → Nat → Cleaner)
    (P : Cleaner → Prop)
    (G : Nat → List Cell → List Cell)
    (M : Nat → List Cell → List Msg)
    (js : List Nat)
    (hpres : ∀ c j, P c → j ∈ js → P (stepf c j))
    (hframe : ∀ c j k, P c → j ∈ js → k ≠ j →
      colAt k (stepf c j).df.rows = colAt k c.df.rows)
    (hself : ∀ c j, P c → j ∈ js →
      colAt j (stepf c j).df.rows = G j (colAt j c.df.rows))
    (hlog : ∀ c j, P c → j ∈ js →
      (stepf c j).log = c.log ++ M j (colAt j c.df.rows))
    (hnd : js.Nodup) :
    ∀ c, P c →
      (∀ j ∈ js, colAt j (js.foldl stepf c).df.rows = G j (colAt j c.df.rows)) ∧
      (∀ k, k ∉ js → colAt k (js.foldl stepf c).df.rows = colAt k c.df.rows) ∧
      (js.foldl stepf c).log
        = c.log ++ (js.map (fun j => M j (colAt j c.df.rows))).flatten ∧
      P (js.foldl stepf c) := by
  induction js with
  | nil => intro c hP; exact ⟨by simp, by simp, by simp, hP⟩
  | cons a rest ih =>
      intro c hP
      have hmem_a : a ∈ a :: rest := by simp
      have hPa : P (stepf c a) := hpres c a hP hmem_a
      have hnd' : rest.Nodup := (List.nodup_cons.mp hnd).2
      have hanot : a ∉ rest := (List.nodup_cons.mp hnd).1
      have ih' := ih
        (fun c j hc hj => hpres c j hc (List.mem_cons_of_mem _ hj))
        (fun c j k hc hj hk => hframe c j k hc (List.mem_cons_of_mem _ hj) hk)
        (fun c j hc hj => hself c j hc (List.mem_cons_of_mem _ hj))
        (fun c j hc hj => hlog c j hc (List.mem_cons_of_mem _ hj))
        hnd' (stepf c a) hPa
      obtain ⟨ih1, ih2, ih3, ih4⟩ := ih'
      have hfold : (a :: rest).foldl stepf c = rest.foldl stepf (stepf c a) := by
        simp [List.foldl_cons]
      refine ⟨?_, ?_, ?_, by rw [hfold]; exact ih4⟩
      · intro j hj
        rw [hfold]
        rcases List.mem_cons.mp hj with rfl | hj'
        · rw [ih2 j hanot]
          exact hself c j hP hmem_a
        · rw [ih1 j hj']
          have hja : j ≠ a := fun he => hanot (he ▸ hj')
          rw [hframe c a j hP hmem_a hja]
      · intro k hk
        rw [hfold]
        have hka : k ≠ a := fun he => hk (he ▸ hmem_a)
        have hkrest : k ∉ rest := fun hr => hk (List.mem_cons_of_mem _ hr)
        rw [ih2 k hkrest, hframe c a k hP hmem_a hka]
      · rw [hfold, ih3, hlog c a hP hmem_a]
        have hcols : ∀ j ∈ rest, M j (colAt j (stepf c a).df.rows)
            = M j (colAt j c.df.rows) := by
          intro j hj
          have hja : j ≠ a := fun he => hanot (he ▸ hj)
          rw [hframe c a j hP hmem_a hja]
        rw [List.map_congr_left hcols]
        simp [List.append_assoc]

/-! ### Length preservation and bounds for the folds -/

theorem foldl_rows_le {β : Type} (stepf : Cleaner → β → Cleaner)
    (h : ∀ c b, (stepf c b).df.rows.length ≤ c.df.rows.length)
    (js : List β) (c : Cleaner) :
    (js.foldl stepf c).df.rows.length ≤ c.df.rows.length := by
  induction js generalizing c with
  | nil => simp
  | cons a rest ih =>
      simp only [List.foldl_cons]
      exact (ih (stepf c a)).trans (h c a)

theorem foldl_rows_eq {β : Type} (stepf : Cleaner → β → Cleaner)
    (h : ∀ c b, (stepf c b).df.rows.length = c.df.rows.length)
    (js : List β) (c : Cleaner) :
    (js.foldl stepf c).df.rows.length = c.df.rows.length := by
  induction js generalizing c with
  | nil => simp
  | cons a rest ih =>
      simp only [List.foldl_cons]
      rw [ih (stepf c a), h c a]

theorem autoStep_cases (c : Cleaner) (j : Nat) :
    autoStep c j = c ∨
    (∃ f : Cell → Cell, ∃ m : Msg,
      autoStep c j = { df := mapCol j f c.df, log := c.log ++ [m] }) := by
  unfold autoStep
  by_cases h0 : countNa (colAt j c.df.rows) = 0
  · rw [if_pos h0]; exact Or.inl rfl
  · rw [if_neg h0]
    by_cases hnum : isNumD (dtypeAt c.df j) = true
    · rw [if_pos hnum]
      exact Or.inr ⟨_, _, rfl⟩
    · rw [if_neg hnum]
      cases hm : modeCell (colAt j c.df.rows) with
      | none => exact Or.inl rfl
      | some m => exact Or.inr ⟨_, _, rfl⟩

theorem autoStep_pres (s0 : List ColInfo) (c : Cleaner) (j : Nat) (h : Pauto s0 c) :
    Pauto s0 (autoStep c j) := by
  obtain ⟨hr, hs⟩ := h
  rcases autoStep_cases c j with he | ⟨f, m, he⟩ <;> rw [he]
  · exact ⟨hr, hs⟩
  · exact ⟨rect_mapCol j f hr, hs⟩

theorem autoStep_frame (c : Cleaner) (j k : Nat) (hk : k ≠ j) :
    colAt k (autoStep c j).df.rows = colAt k c.df.rows := by
  rcases autoStep_cases c j with he | ⟨f, m, he⟩ <;> rw [he]
  exact colAt_mapCol_ne f c.df hk

theorem autoStep_self (s0 : List ColInfo) (c : Cleaner) (j : Nat)
    (h : Pauto s0 c) (hj : j < s0.length) :
    colAt j (autoStep c j).df.rows = autoG s0 j (colAt j c.df.rows) := by
  obtain ⟨hr, hs⟩ := h
  have hw : j < width c.df := by rw [width, hs]; exact hj
  have hdt : dtypeAt c.df j = (s0.getD j defCI).dtype := by rw [dtypeAt, hs]
  unfold autoStep autoG
  by_cases h0 : countNa (colAt j c.df.rows) = 0
  · rw [if_pos h0, if_pos h0]
  · rw [if_neg h0, if_neg h0, hdt]
    by_cases hnum : isNumD (s0.getD j defCI).dtype = true
    · rw [if_pos hnum, if_pos hnum]
      exact colAt_mapCol_self _ _ hr hw
    · rw [if_neg hnum, if_neg hnum]
      cases hm : modeCell (colAt j c.df.rows) with
      | none => rfl
      | some m => exact colAt_mapCol_self _ _ hr hw

theorem autoStep_log (s0 : List ColInfo) (c : Cleaner) (j : Nat)
    (h : Pauto s0 c) :
    (autoStep c j).log = c.log ++ autoM s0 j (colAt j c.df.rows) := by
  obtain ⟨hr, hs⟩ := h
  have hdt : dtypeAt c.df j = (s0.getD j defCI).dtype := by rw [dtypeAt, hs]
  have hnm : nameAt c.df j = (s0.getD j defCI).cname := by rw [nameAt, hs]
  unfold autoStep autoM
  by_cases h0 : countNa (colAt j c.df.rows) = 0
  · rw [if_pos h0, if_pos h0]; simp
  · rw [if_neg h0, if_neg h0, hdt, hnm]
    by_cases hnum : isNumD (s0.getD j defCI).dtype = true
    · rw [if_pos hnum, if_pos hnum]
    · rw [if_neg hnum, if_neg hnum]
      cases hm : modeCell (colAt j c.df.rows) with
      | none => simp
      | some m => rfl

/-- The auto branch of handle_missing_values, when something is missing. -/
theorem handle_missing_auto_eq (c : Cleaner) (htot : countNaTable c.df.rows ≠ 0) :
    handle_missing_values c Strategy.auto
      = (List.range (width c.df)).foldl autoStep
          { c with log := c.log ++ [Msg.foundMissing (countNaTable c.df.rows)] } := by
  unfold handle_missing_values
  rw [if_neg htot]

/-- Claim C2: after handle_missing_values auto, every column that had at
least one present value holds no missing values; a numeric-dtype column is
filled with its median over present values, any other column with its mode,
and an entirely missing column is skipped (vacuously here, since such a
column has no present value). -/
theorem claim_C2_auto_fill (c : Cleaner) (j : Nat)
    (hrect : Rect c.df) (hwt : NumWellTyped c.df) (hj : j < width c.df)
    (hpre : 0 < countPresent (colAt j c.df.rows)) :
    countNa (colAt j (handle_missing_values c Strategy.auto).df.rows) = 0 ∧
    (0 < countNa (colAt j c.df.rows) → isNumD (dtypeAt c.df j) = true →
      colAt j (handle_missing_values c Strategy.auto).df.rows
        = (colAt j c.df.rows).map (fillWith (medianCell (colAt j c.df.rows)))) ∧
    (0 < countNa (colAt j c.df.rows) → isNumD (dtypeAt c.df j) = false →
      ∃ m, modeCell (colAt j c.df.rows) = some m ∧ m ≠ Cell.na ∧
        colAt j (handle_missing_values c Strategy.auto).df.rows
          = (colAt j c.df.rows).map (fillWith m)) := by
  have hcole : countNa (colAt j c.df.rows) ≤ countNaTable c.df.rows :=
    countNa_colAt_le j _ (fun r hr => by rw [hrect r hr]; exact hj)
  obtain ⟨x, hx, hxne⟩ := List.countP_pos.mp hpre
  have hxne' : x ≠ Cell.na := by simpa using hxne
  by_cases htot : countNaTable c.df.rows = 0
  · have hres : (handle_missing_values c Strategy.auto).df = c.df := by
      unfold handle_missing_values
      rw [if_pos htot]
    have hc0 : countNa (colAt j c.df.rows) = 0 := by omega
    rw [hres]
    exact ⟨hc0, fun hcn _ => absurd hcn (by omega), fun hcn _ => absurd hcn (by omega)⟩
  · rw [handle_missing_auto_eq c htot]
    have hspec := opFold_spec autoStep (Pauto c.df.schema) (autoG c.df.schema)
      (autoM c.df.schema) (List.range (width c.df))
      (fun c0 j0 h _ => autoStep_pres _ c0 j0 h)
      (fun c0 j0 k h _ hk => autoStep_frame c0 j0 k hk)
      (fun c0 j0 h hj0 => autoStep_self _ c0 j0 h (List.mem_range.mp hj0))
      (fun c0 j0 h _ => autoStep_log _ c0 j0 h)
      (List.nodup_range _)
      { c with log := c.log ++ [Msg.foundMissing (countNaTable c.df.rows)] }
      ⟨hrect, rfl⟩
    have hcol := hspec.1 j (List.mem_range.mpr hj)
    rw [hcol]
    by_cases h0 : countNa (colAt j c.df.rows) = 0
    · unfold autoG
      rw [if_pos h0]
      exact ⟨h0, fun hcn _ => absurd hcn (by omega), fun hcn _ => absurd hcn (by omega)⟩
    · by_cases hnum : isNumD (dtypeAt c.df j) = true
      · have hnum' : isNumD (c.df.schema.getD j defCI).dtype = true := hnum
        obtain ⟨q, rfl⟩ := (hwt j hj hnum x hx).resolve_left hxne'
        have hmed : medianCell (colAt j c.df.rows) ≠ Cell.na :=
          medianCell_ne_na ⟨q, hx⟩
        unfold autoG
        rw [if_neg h0, if_pos hnum']
        refine ⟨countNa_map_fillWith hmed _, fun _ _ => rfl, fun _ hfalse => ?_⟩
        rw [hnum] at hfalse
        exact absurd hfalse (by simp)
      · obtain ⟨m, hm, hmna⟩ := modeCell_spec ⟨x, hx, hxne'⟩
        have hnum' : ¬ isNumD (c.df.schema.getD j defCI).dtype = true := hnum
        unfold autoG
        rw [if_neg h0, if_neg hnum']
        simp only [hm]
        refine ⟨countNa_map_fillWith hmna _, fun _ htrue => absurd htrue hnum,
          fun _ _ => ⟨m, rfl, hmna, rfl⟩⟩

theorem claim_C2_auto_fill_witness :
    countNa (colAt 0 (handle_missing_values c2ex Strategy.auto).df.rows) = 0 := by
  have hrect : Rect c2ex.df := by
    intro r hr
    fin_cases hr <;> rfl
  have hwt : NumWellTyped c2ex.df := by
    intro j hj hnum x hx
    have hj2 : j < 2 := hj
    interval_cases j
    · fin_cases hx
      · exact Or.inr ⟨1, rfl⟩
      · exact Or.inl rfl
      · exact Or.inr ⟨3, rfl⟩
    · exact absurd hnum (by decide)
  exact (claim_C2_auto_fill c2ex 0 hrect hwt (by decide) (by decide)).1

/-! ### Claim C3: remove_duplicates -/

/-- Claim C3: with no subset argument, remove_duplicates yields a table with
no two identical rows, a subsequence of the original rows (so the relative
order of retained rows is their original order), the same set of rows, and
exactly the keep-the-first-occurrence selection that the spec describes. -/
theorem claim_C3_remove_duplicates (c : Cleaner) :
    ((remove_duplicates c none).df.rows).Nodup ∧
    List.Sublist (remove_duplicates c none).df.rows c.df.rows ∧
    (∀ r, r ∈ c.df.rows ↔ r ∈ (remove_duplicates c none).df.rows) ∧
    (remove_duplicates c none).df.rows = specKeepFirst c.df.rows := by
  have hrows : (remove_duplicates c none).df.rows
      = dropDupAux (fun r => r) [] c.df.rows := rfl
  rw [hrows]
  refine ⟨(dropDupAux_id_nodup [] c.df.rows).1, dropDupAux_sublist _ [] c.df.rows, ?_, ?_⟩
  · intro r
    constructor
    · intro hr
      rcases dropDupAux_id_mem [] c.df.rows r hr with hs | ho
      · exact absurd hs (List.not_mem_nil r)
      · exact ho
    · intro hr
      exact (dropDupAux_sublist _ [] c.df.rows).subset hr
  · rw [dropDupAux_id_eq_spec]
    congr 1
    have : ∀ q ∈ c.df.rows, decide (q ∉ ([] : List (List Cell))) = true := by
      intro q _
      simp
    calc List.filter (fun q => decide (q ∉ ([] : List (List Cell)))) c.df.rows
        = List.filter (fun _ => true) c.df.rows := List.filter_congr this
      _ = c.df.rows := List.filter_true _

theorem claim_C3_remove_duplicates_witness :
    ((remove_duplicates c3ex none).df.rows).Nodup ∧
    (remove_duplicates c3ex none).df.rows = specKeepFirst c3ex.df.rows :=
  ⟨(claim_C3_remove_duplicates c3ex).1, (claim_C3_remove_duplicates c3ex).2.2.2⟩

/-- Counterexample to claim C9: a no-op remove_duplicates (zero duplicates
found) appends no log entry at all, rather than an informational one. -/
theorem claim_C9_counterexample :
    (remove_duplicates c9ex none).df.rows = c9ex.df.rows ∧
    (remove_duplicates c9ex none).log = [] := by
  constructor
  · rfl
  · rfl

/-- Claim C9 as amended: remove_duplicates logs exactly when it removed rows
and is silent on a no-op, while a no-op handle_missing_values does append the
informational no-missing-values entry. -/
theorem claim_C9_amended (c : Cleaner) (subset : Option (List CStr)) (strategy : Strategy) :
    ((remove_duplicates c subset).df.rows.length = c.df.rows.length →
      (remove_duplicates c subset).log = c.log) ∧
    ((remove_duplicates c subset).df.rows.length < c.df.rows.length →
      (remove_duplicates c subset).log
        = c.log ++ [Msg.removedDuplicates
            (c.df.rows.length - (remove_duplicates c subset).df.rows.length)]) ∧
    (countNaTable c.df.rows = 0 →
      (handle_missing_values c strategy).log = c.log ++ [Msg.noMissing]) := by
  have hrows : (remove_duplicates c subset).df.rows
      = dropDuplicates (keyOf c.df.schema subset) c.df.rows := rfl
  have hlog : (remove_duplicates c subset).log
      = c.log ++ (if 0 < c.df.rows.length
            - (dropDuplicates (keyOf c.df.schema subset) c.df.rows).length
          then [Msg.removedDuplicates (c.df.rows.length
            - (dropDuplicates (keyOf c.df.schema subset) c.df.rows).length)]
          else []) := rfl
  refine ⟨?_, ?_, ?_⟩
  · intro heq
    rw [hrows] at heq
    rw [hlog, if_neg (by omega), List.append_nil]
  · intro hlt
    rw [hrows] at hlt
    rw [hlog, if_pos (by omega), hrows]
  · intro h0
    unfold handle_missing_values
    rw [if_pos h0]

theorem claim_C9_amended_witness :
    (remove_duplicates c9ex none).log = c9ex.log :=
  (claim_C9_amended c9ex none Strategy.auto).1 (by decide)

/-! ### Claim C7: validate_ids never changes the table -/

theorem validateName_df (acc : Cleaner) (n : CStr) : (validateName acc n).df = acc.df := by
  unfold validateName
  split
  · dsimp only []
    split <;> split <;> rfl
  · rfl

theorem validate_ids_df (c : Cleaner) (ids : Option (List CStr)) :
    (validate_ids c ids).df = c.df := by
  unfold validate_ids
  generalize (ids.getD (autoIdCols c.df.schema)) = names
  induction names generalizing c with
  | nil => rfl
  | cons n rest ih =>
      simp only [List.foldl_cons]
      rw [ih (validateName c n), validateName_df]

/-- Claim C7: validate_ids only appends warnings and never changes the table,
and on the Ticket_ID example it logs exactly one duplicate warning with
count 1 while the three rows keep their values. -/
theorem claim_C7_validate_ids (c : Cleaner) (ids : Option (List CStr)) :
    (validate_ids c ids).df = c.df ∧
    (validate_ids c7ex (some [cs "Ticket_ID"])).df = c7ex.df ∧
    (validate_ids c7ex (some [cs "Ticket_ID"])).log
      = [Msg.warnDuplicateIds 1 (cs "Ticket_ID")] :=
  ⟨validate_ids_df c ids, by rfl, by rfl⟩

/-! ### Claim C1: standardize_text_columns on an empty table -/

theorem std_empty_error (c : Cleaner) (hempty : c.df.rows = [])
    (hobj : objIdxs c.df.schema ≠ []) :
    standardize_text_columns c = .error PyErr.zeroDivision := by
  unfold standardize_text_columns
  cases hjs : objIdxs c.df.schema with
  | nil => exact absurd hjs hobj
  | cons a rest =>
      rw [List.foldlM_cons]
      have hstep : stdStepE c a = .error PyErr.zeroDivision := by
        unfold stdStepE
        have hlen : (mapCol a stripCell c.df).rows.length = 0 := by
          rw [mapCol_rows_length, hempty]
          rfl
        rw [if_pos hlen]
      rw [hstep]
      rfl

/-- Claim C1 is contradicted by the code: on a zero-row table that has at
least one object-dtype column, the unique-ratio computation divides
nunique by len(df) = 0 and raises ZeroDivisionError. -/
theorem claim_C1_std_raises (c : Cleaner) (hempty : c.df.rows = [])
    (hobj : objIdxs c.df.schema ≠ []) :
    standardize_text_columns c = .error PyErr.zeroDivision :=
  std_empty_error c hempty hobj

theorem claim_C1_std_raises_witness :
    standardize_text_columns c1ex = .error PyErr.zeroDivision :=
  claim_C1_std_raises c1ex rfl (by decide)

/-- Counterexample to claim C10: on Status = [" open ", "OPEN", "closed"] the
code merely trims (the unique ratio is 3 of 3, not below one half), so the
result is ["open", "OPEN", "closed"], not the claimed ["Open", "Open",
"Closed"]. -/
theorem claim_C10_counterexample :
    standardize_text_columns c10ex = Except.ok c10res ∧
    c10res.df.rows
      ≠ [[Cell.str (cs "Open")], [Cell.str (cs "Open")], [Cell.str (cs "Closed")]] := by
  constructor
  · rfl
  · decide

/-- Claim C10 as amended: on the example the column is only trimmed, because
its distinct-to-row-count ratio is 1, not below one half, so no
title-casing is applied. -/
theorem claim_C10_amended :
    ∃ c2, standardize_text_columns c10ex = Except.ok c2 ∧
      colAt 0 c2.df.rows
        = [Cell.str (cs "open"), Cell.str (cs "OPEN"), Cell.str (cs "closed")] ∧
      ¬ 2 * nuniqueCells ((colAt 0 c10ex.df.rows).map stripCell)
          < c10ex.df.rows.length :=
  ⟨_, rfl, rfl, by decide⟩

/-! ### Claim C4: clean_numeric_columns -/

theorem cleanStep_df (c : Cleaner) (j : Nat) :
    (cleanStep c j).df
      = if hasKw (nameAt c.df j) = true ∧ 0 < (colAt j c.df.rows).countP cellNeg
        then { c.df with rows := c.df.rows.filter (fun r => cellGeZero (r.getD j Cell.na)) }
        else c.df := by
  unfold cleanStep
  dsimp only []
  by_cases hc : hasKw (nameAt c.df j) = true ∧ 0 < (colAt j c.df.rows).countP cellNeg
  · rw [if_pos hc, if_pos hc]
    split <;> first | rfl | (split <;> rfl)
  · rw [if_neg hc, if_neg hc]
    split <;> first | rfl | (split <;> rfl)

theorem cleanStep_df_eq (c : Cleaner) (j : Nat) :
    (cleanStep c j).df = negFilterStep c.df j := by
  rw [cleanStep_df]
  rfl

theorem negFilterStep_schema (t : Table) (j : Nat) :
    (negFilterStep t j).schema = t.schema := by
  unfold negFilterStep
  split
  · rfl
  · rfl

theorem negFilterStep_rows_sublist (t : Table) (j : Nat) :
    List.Sublist (negFilterStep t j).rows t.rows := by
  unfold negFilterStep
  split
  · exact List.filter_sublist _
  · exact List.Sublist.refl _

theorem negFold_rows_sublist (js : List Nat) (t : Table) :
    List.Sublist ((js.foldl negFilterStep t).rows) t.rows := by
  induction js generalizing t with
  | nil => exact List.Sublist.refl _
  | cons a rest ih =>
      simp only [List.foldl_cons]
      exact (ih (negFilterStep t a)).trans (negFilterStep_rows_sublist t a)

theorem clean_fold_df (js : List Nat) : ∀ c : Cleaner,
    (js.foldl cleanStep c).df = js.foldl negFilterStep c.df := by
  induction js with
  | nil => intro c; rfl
  | cons a rest ih =>
      intro c
      simp only [List.foldl_cons]
      rw [ih (cleanStep c a), cleanStep_df_eq]

theorem cellGeZero_not_neg {x : Cell} (h : cellGeZero x = true) : cellNeg x = false := by
  cases x with
  | num q =>
      simp only [cellGeZero, decide_eq_true_eq] at h
      simp only [cellNeg, decide_eq_false_iff_not]
      exact not_lt.mpr h
  | na => rfl
  | str s => rfl
  | date d => rfl

/-- Right after its own iteration, a keyword numeric column holds no
strictly negative value: either it had none, or the filter kept only the
rows whose value compares >= 0. -/
theorem negFilterStep_self_zero (t : Table) (j : Nat)
    (hkw : hasKw (nameAt t j) = true) :
    (colAt j (negFilterStep t j).rows).countP cellNeg = 0 := by
  unfold negFilterStep
  by_cases hneg : 0 < (colAt j t.rows).countP cellNeg
  · rw [if_pos ⟨hkw, hneg⟩]
    rw [List.countP_eq_zero]
    intro x hx
    simp only [colAt, List.mem_map] at hx
    obtain ⟨r, hr, rfl⟩ := hx
    have hge := (List.mem_filter.mp hr).2
    rw [cellGeZero_not_neg hge]
    simp
  · rw [if_neg (fun hc => hneg hc.2)]
    omega

/-- Later iterations only remove rows, so a keyword column stays free of
negative values through the rest of the fold. -/
theorem negFold_keyword_zero (js : List Nat) :
    ∀ t : Table, ∀ j ∈ js, hasKw (nameAt t j) = true →
      (colAt j (js.foldl negFilterStep t).rows).countP cellNeg = 0 := by
  induction js with
  | nil =>
      intro t j hj
      simp at hj
  | cons a rest ih =>
      intro t j hj hkw
      simp only [List.foldl_cons]
      rcases List.mem_cons.mp hj with rfl | hj2
      · have h0 := negFilterStep_self_zero t j hkw
        have hsub : List.Sublist (rest.foldl negFilterStep (negFilterStep t j)).rows
            (negFilterStep t j).rows := negFold_rows_sublist rest _
        have hcol : List.Sublist (colAt j (rest.foldl negFilterStep (negFilterStep t j)).rows)
            (colAt j (negFilterStep t j).rows) := by
          unfold colAt
          exact List.Sublist.map (fun r => r.getD j Cell.na) hsub
        have hle := List.Sublist.countP_le cellNeg hcol
        omega
      · have hname : nameAt (negFilterStep t a) j = nameAt t j := by
          unfold nameAt
          rw [negFilterStep_schema]
        exact ih (negFilterStep t a) j hj2 (by rw [hname]; exact hkw)

/-- The removed-negative entries one iteration appends: exactly the message
the spec predicts, while the outlier flag entries it may also append carry a
different constructor. -/
theorem cleanStep_log_filter (c : Cleaner) (j : Nat) :
    (cleanStep c j).log.filter isNegMsg
      = c.log.filter isNegMsg ++
        (if hasKw (nameAt c.df j) = true ∧ 0 < (colAt j c.df.rows).countP cellNeg
         then [Msg.removedNegative ((colAt j c.df.rows).countP cellNeg) (nameAt c.df j)]
         else []) := by
  unfold cleanStep
  dsimp only []
  by_cases hc : hasKw (nameAt c.df j) = true ∧ 0 < (colAt j c.df.rows).countP cellNeg
  · rw [if_pos hc, if_pos hc]
    split
    · split
      · simp [List.filter_append, isNegMsg]
      · simp [List.filter_append, isNegMsg]
    · simp [List.filter_append, isNegMsg]
  · rw [if_neg hc, if_neg hc]
    split
    · split
      · simp [List.filter_append, isNegMsg]
      · simp [List.filter_append, isNegMsg]
    · simp [List.filter_append, isNegMsg]

theorem clean_fold_log_filter (js : List Nat) : ∀ c : Cleaner,
    (js.foldl cleanStep c).log.filter isNegMsg
      = c.log.filter isNegMsg ++ negFilterMsgs c.df js := by
  induction js with
  | nil =>
      intro c
      simp [negFilterMsgs]
  | cons a rest ih =>
      intro c
      simp only [List.foldl_cons]
      rw [ih (cleanStep c a), cleanStep_log_filter, cleanStep_df_eq]
      simp only [negFilterMsgs]
      rw [List.append_assoc]

/-- Claim C4 as amended, over every table: clean_numeric_columns processes
the numeric-dtype keyword columns in schema order; at each such column, when
the table as filtered so far holds at least one strictly negative value in
it, exactly the rows whose value compares >= 0 survive — rows whose value is
negative or missing are dropped together — and the entry logged for it
carries the count of strictly negative values at that point, while a column
with no negative value at its turn leaves the rows untouched and logs
nothing (the fold equality); consequently the surviving rows are a
subsequence of the original rows in their original order, and no keyword
numeric column retains a strictly negative value. -/
theorem claim_C4_amended (c : Cleaner) :
    (clean_numeric_columns c).df = (numIdxs c.df.schema).foldl negFilterStep c.df ∧
    List.Sublist (clean_numeric_columns c).df.rows c.df.rows ∧
    (∀ j ∈ numIdxs c.df.schema, hasKw (nameAt c.df j) = true →
      (colAt j (clean_numeric_columns c).df.rows).countP cellNeg = 0) ∧
    (clean_numeric_columns c).log.filter isNegMsg
      = c.log.filter isNegMsg ++ negFilterMsgs c.df (numIdxs c.df.schema) := by
  have hdf : (clean_numeric_columns c).df
      = (numIdxs c.df.schema).foldl negFilterStep c.df :=
    clean_fold_df (numIdxs c.df.schema) c
  refine ⟨hdf, ?_, ?_, clean_fold_log_filter (numIdxs c.df.schema) c⟩
  · rw [hdf]
    exact negFold_rows_sublist _ _
  · intro j hj hkw
    rw [hdf]
    exact negFold_keyword_zero _ c.df j hj hkw

unseal Rat.add Rat.sub Rat.mul Rat.inv in
/-- Counterexample to claim C4 as stated: on Cost = [-5, missing, 10] the
code removes the missing row along with the negative one (the surviving rows
are just [10]), while the claim says rows with a missing value are retained;
the logged count still says 1. -/
theorem claim_C4_counterexample :
    (clean_numeric_columns c4ex).df.rows = [[Cell.num 10]] ∧
    [Cell.na] ∈ c4ex.df.rows ∧
    [Cell.na] ∉ (clean_numeric_columns c4ex).df.rows ∧
    (clean_numeric_columns c4ex).log = [Msg.removedNegative 1 (cs "Cost")] := by
  refine ⟨by decide, by decide, ?_, by decide⟩
  intro hmem
  rw [(by decide : (clean_numeric_columns c4ex).df.rows = [[Cell.num 10]])] at hmem
  simp at hmem

theorem claim_C4_amended_witness :
    (clean_numeric_columns c4ex2).df.rows = [[Cell.num 10], [Cell.num 20]] ∧
    (colAt 0 (clean_numeric_columns c4ex2).df.rows).countP cellNeg = 0 ∧
    (clean_numeric_columns c4ex2).log.filter isNegMsg
      = [Msg.removedNegative 1 (cs "Cost")] := by
  have h := claim_C4_amended c4ex2
  refine ⟨?_, h.2.2.1 0 (by decide) (by decide), ?_⟩
  · have h1 := congrArg Table.rows h.1
    exact h1.trans (by decide)
  · rw [h.2.2.2]
    decide

/-! ### Claim C5: parse_dates -/

theorem colIndex_lt {schema : List ColInfo} {n : CStr} {j : Nat}
    (h : colIndex schema n = some j) : j < schema.length := by
  induction schema generalizing j with
  | nil => simp [colIndex] at h
  | cons ci rest ih =>
      unfold colIndex at h
      by_cases hc : ci.cname = n
      · rw [if_pos hc] at h
        cases h
        simp
      · rw [if_neg hc] at h
        cases hrec : colIndex rest n with
        | none => rw [hrec] at h; simp at h
        | some j0 =>
            rw [hrec] at h
            simp at h
            have := ih hrec
            simp only [List.length_cons]
            omega

theorem colIndex_congr {s1 s2 : List ColInfo}
    (h : s1.map ColInfo.cname = s2.map ColInfo.cname) (n : CStr) :
    colIndex s1 n = colIndex s2 n := by
  induction s1 generalizing s2 with
  | nil =>
      cases s2 with
      | nil => rfl
      | cons b bs => simp at h
  | cons a as ih =>
      cases s2 with
      | nil => simp at h
      | cons b bs =>
          simp only [List.map_cons, List.cons.injEq] at h
          unfold colIndex
          rw [h.1, ih h.2]

theorem nameAt_congr {t1 t2 : Table}
    (h : t1.schema.map ColInfo.cname = t2.schema.map ColInfo.cname) (j : Nat) :
    nameAt t1 j = nameAt t2 j := by
  have h1 : (t1.schema.map ColInfo.cname).getD j (ColInfo.cname defCI)
      = ColInfo.cname (t1.schema.getD j defCI) := List.getD_map _ _ _
  have h2 : (t2.schema.map ColInfo.cname).getD j (ColInfo.cname defCI)
      = ColInfo.cname (t2.schema.getD j defCI) := List.getD_map _ _ _
  unfold nameAt
  rw [← h1, ← h2, h]

theorem parseStep_rows (c : Cleaner) (j : Nat) :
    (parseStep c j).df.rows = (mapCol j toDatetimeCell c.df).rows := by
  unfold parseStep
  dsimp only []
  split <;> rfl

theorem parseStep_schema (c : Cleaner) (j : Nat) :
    (parseStep c j).df.schema = c.df.schema.map (fun ci =>
      if ci.cname = nameAt c.df j then { ci with dtype := DType.datetime64 } else ci) := by
  unfold parseStep
  dsimp only []
  split <;> rfl

theorem parseStep_cnames (c : Cleaner) (j : Nat) :
    (parseStep c j).df.schema.map ColInfo.cname = c.df.schema.map ColInfo.cname := by
  rw [parseStep_schema, List.map_map]
  apply List.map_congr_left
  intro ci _
  by_cases hc : ci.cname = nameAt c.df j
  · simp [hc]
  · simp [hc]

theorem parseStep_width (c : Cleaner) (j : Nat) :
    (parseStep c j).df.schema.length = c.df.schema.length := by
  rw [parseStep_schema, List.length_map]

theorem parseStep_rect (c : Cleaner) (j : Nat) (hr : Rect c.df) :
    Rect (parseStep c j).df := by
  intro r hmem
  rw [parseStep_rows] at hmem
  rw [parseStep_width]
  exact rect_mapCol j toDatetimeCell hr r hmem

theorem parseStep_log (c : Cleaner) (j : Nat) (hr : Rect c.df) (hj : j < width c.df) :
    (parseStep c j).log = c.log ++
      (if 0 < countNa ((colAt j c.df.rows).map toDatetimeCell)
       then [Msg.foundInvalidDates (countNa ((colAt j c.df.rows).map toDatetimeCell))
          (nameAt c.df j)]
       else [Msg.parsedDatetime (nameAt c.df j)]) := by
  have hcol : colAt j (mapCol j toDatetimeCell c.df).rows
      = (colAt j c.df.rows).map toDatetimeCell := colAt_mapCol_self _ _ hr hj
  unfold parseStep
  dsimp only []
  rw [hcol]
  split
  · rfl
  · rfl

/-- The name-directed parse_dates loop equals the fold of parseStep over the
indices the given names resolve to (absent names are skipped). -/
theorem parse_fold_eq (names : List CStr) (c : Cleaner) :
    names.foldl parseName c
      = (names.filterMap (colIndex c.df.schema)).foldl parseStep c := by
  induction names generalizing c with
  | nil => rfl
  | cons n rest ih =>
      simp only [List.foldl_cons, List.filterMap_cons]
      cases hci : colIndex c.df.schema n with
      | none =>
          have hstep : parseName c n = c := by
            unfold parseName
            rw [hci]
          rw [hstep, ih c]
      | some j =>
          have hstep : parseName c n = parseStep c j := by
            unfold parseName
            rw [hci]
          simp only [List.foldl_cons]
          rw [hstep, ih (parseStep c j)]
          congr 1
          apply List.filterMap_congr ?_
          intro m _
          exact colIndex_congr (parseStep_cnames c j) m

/-- Claim C5 as amended: for every listed date column, parse_dates coerces
every cell of the column with to_datetime — each unparseable present value
and only those become missing, parsed values become datetimes, missing stays
missing — touches no other column, and never raises (the coercion is a total
function); the count it logs as invalid dates is the number of missing
values after coercion, which counts values that were already missing along
with the values that failed to parse. -/
theorem claim_C5_parse_dates (c : Cleaner) (names : List CStr) (j : Nat)
    (hrect : Rect c.df)
    (hnd : (names.filterMap (colIndex c.df.schema)).Nodup)
    (hj : j ∈ names.filterMap (colIndex c.df.schema)) :
    colAt j (parse_dates c (some names)).df.rows
      = (colAt j c.df.rows).map toDatetimeCell ∧
    (∀ k, k ∉ names.filterMap (colIndex c.df.schema) →
      colAt k (parse_dates c (some names)).df.rows = colAt k c.df.rows) ∧
    (0 < countNa ((colAt j c.df.rows).map toDatetimeCell) →
      Msg.foundInvalidDates (countNa ((colAt j c.df.rows).map toDatetimeCell))
        (nameAt c.df j) ∈ (parse_dates c (some names)).log) ∧
    (countNa ((colAt j c.df.rows).map toDatetimeCell) = 0 →
      Msg.parsedDatetime (nameAt c.df j) ∈ (parse_dates c (some names)).log) := by
  have hfold : parse_dates c (some names) = names.foldl parseName c := rfl
  rw [hfold, parse_fold_eq names c]
  set js := names.filterMap (colIndex c.df.schema) with hjs
  have hjlt : ∀ i ∈ js, i < width c.df := by
    intro i hi
    obtain ⟨n, _, hci⟩ := List.mem_filterMap.mp hi
    exact colIndex_lt hci
  have hspec := opFold_spec parseStep
    (fun c0 => Rect c0.df ∧ c0.df.schema.map ColInfo.cname = c.df.schema.map ColInfo.cname)
    (fun _ col => col.map toDatetimeCell)
    (fun i col =>
      if 0 < countNa (col.map toDatetimeCell)
      then [Msg.foundInvalidDates (countNa (col.map toDatetimeCell)) (nameAt c.df i)]
      else [Msg.parsedDatetime (nameAt c.df i)])
    js
    (fun c0 i h _ => ⟨parseStep_rect c0 i h.1, (parseStep_cnames c0 i).trans h.2⟩)
    (fun c0 i k h _ hk => by rw [parseStep_rows]; exact colAt_mapCol_ne _ _ hk)
    (fun c0 i h hi => by
      rw [parseStep_rows]
      apply colAt_mapCol_self _ _ h.1
      have hlen : width c0.df = width c.df := by
        have := congrArg List.length h.2
        simpa [width] using this
      rw [hlen]
      exact hjlt i hi)
    (fun c0 i h hi => by
      have hwl : width c0.df = width c.df := by
        have := congrArg List.length h.2
        simpa [width] using this
      rw [parseStep_log c0 i h.1 (by rw [hwl]; exact hjlt i hi)]
      rw [nameAt_congr h.2 i])
    hnd c ⟨hrect, rfl⟩
  obtain ⟨h1, h2, h3, _⟩ := hspec
  refine ⟨h1 j hj, h2, ?_, ?_⟩
  · intro hpos
    rw [h3]
    have hmem : (if 0 < countNa ((colAt j c.df.rows).map toDatetimeCell)
        then [Msg.foundInvalidDates (countNa ((colAt j c.df.rows).map toDatetimeCell))
            (nameAt c.df j)]
        else [Msg.parsedDatetime (nameAt c.df j)])
        ∈ js.map (fun i => if 0 < countNa ((colAt i c.df.rows).map toDatetimeCell)
            then [Msg.foundInvalidDates (countNa ((colAt i c.df.rows).map toDatetimeCell))
                (nameAt c.df i)]
            else [Msg.parsedDatetime (nameAt c.df i)]) :=
      List.mem_map_of_mem _ hj
    rw [if_pos hpos] at hmem
    apply List.mem_append_right
    exact List.mem_flatten.mpr ⟨_, hmem, by simp⟩
  · intro hzero
    rw [h3]
    have hmem : (if 0 < countNa ((colAt j c.df.rows).map toDatetimeCell)
        then [Msg.foundInvalidDates (countNa ((colAt j c.df.rows).map toDatetimeCell))
            (nameAt c.df j)]
        else [Msg.parsedDatetime (nameAt c.df j)])
        ∈ js.map (fun i => if 0 < countNa ((colAt i c.df.rows).map toDatetimeCell)
            then [Msg.foundInvalidDates (countNa ((colAt i c.df.rows).map toDatetimeCell))
                (nameAt c.df i)]
            else [Msg.parsedDatetime (nameAt c.df i)]) :=
      List.mem_map_of_mem _ hj
    rw [if_neg (by omega)] at hmem
    apply List.mem_append_right
    exact List.mem_flatten.mpr ⟨_, hmem, by simp⟩

/-- Counterexample to claim C5 as stated: on Date = [missing, not-a-date,
2024-01-05] only one value fails to parse, yet the code logs two invalid
dates, because the count is taken over all missing cells after coercion and
so includes the value that was already missing. -/
theorem claim_C5_counterexample :
    (parse_dates c5ex (some [cs "Date"])).log
      = [Msg.foundInvalidDates 2 (cs "Date")] ∧
    (colAt 0 c5ex.df.rows).countP
      (fun x => decide (x ≠ Cell.na) && decide (toDatetimeCell x = Cell.na)) = 1 := by
  constructor
  · rfl
  · rfl

theorem claim_C5_parse_dates_witness :
    colAt 0 (parse_dates c5wex (some [cs "Date"])).df.rows
      = [Cell.date 20240105, Cell.na] ∧
    Msg.foundInvalidDates 1 (cs "Date") ∈ (parse_dates c5wex (some [cs "Date"])).log := by
  have hrect : Rect c5wex.df := by
    intro r hr
    fin_cases hr <;> rfl
  have h := claim_C5_parse_dates c5wex [cs "Date"] 0 hrect (by decide) (by decide)
  constructor
  · exact h.1.trans (by decide)
  · have hmem := h.2.2.1 (by decide)
    have hcnt : countNa ((colAt 0 c5wex.df.rows).map toDatetimeCell) = 1 := by decide
    rw [hcnt] at hmem
    exact hmem

/-! ### Claim C8: no operation inserts rows -/

theorem autoStep_len (c : Cleaner) (j : Nat) :
    (autoStep c j).df.rows.length = c.df.rows.length := by
  rcases autoStep_cases c j with he | ⟨f, m, he⟩ <;> rw [he]
  exact mapCol_rows_length j f c.df

theorem stdStepE_len (c : Cleaner) (j : Nat) (c2 : Cleaner)
    (h : stdStepE c j = .ok c2) : c2.df.rows.length = c.df.rows.length := by
  unfold stdStepE at h
  dsimp only [] at h
  by_cases h0 : (mapCol j stripCell c.df).rows.length = 0
  · rw [if_pos h0] at h
    exact absurd h (by simp)
  · rw [if_neg h0] at h
    split at h
    · cases h
      simp [mapCol_rows_length]
    · cases h
      simp [mapCol_rows_length]

theorem stdFold_len (js : List Nat) :
    ∀ c c2, js.foldlM stdStepE c = .ok c2 → c2.df.rows.length = c.df.rows.length := by
  induction js with
  | nil =>
      intro c c2 h
      cases h
      rfl
  | cons a rest ih =>
      intro c c2 h
      rw [List.foldlM_cons] at h
      cases hstep : stdStepE c a with
      | error e =>
          rw [hstep] at h
          have h3 : Except.error PyErr.zeroDivision = Except.ok c2 := h
          exact Except.noConfusion h3
      | ok c1 =>
          rw [hstep] at h
          have h2 : rest.foldlM stdStepE c1 = .ok c2 := h
          rw [ih c1 c2 h2, stdStepE_len c a c1 hstep]

theorem cleanStep_len (c : Cleaner) (j : Nat) :
    (cleanStep c j).df.rows.length ≤ c.df.rows.length := by
  rw [cleanStep_df]
  split
  · exact List.length_filter_le _ _
  · exact Nat.le_refl _

theorem parseName_len (c : Cleaner) (n : CStr) :
    (parseName c n).df.rows.length = c.df.rows.length := by
  unfold parseName
  cases hci : colIndex c.df.schema n with
  | none => rfl
  | some j =>
      rw [parseStep_rows]
      exact mapCol_rows_length j toDatetimeCell c.df

theorem catStep_len (c : Cleaner) (p : CStr × List (Cell × Cell)) :
    (catStep c p).df.rows.length = c.df.rows.length := by
  unfold catStep
  cases hci : colIndex c.df.schema p.1 with
  | none => rfl
  | some j => exact mapCol_rows_length j (replaceCell p.2) c.df

/-- Claim C8: no Cleaner operation ever inserts rows: for each of the nine
operations, the row count after is at most the row count before (for
standardize_text_columns, whenever it returns at all rather than raising). -/
theorem claim_C8_no_row_insert (c : Cleaner) (strategy : Strategy)
    (subset : Option (List CStr)) (ids : Option (List CStr))
    (mapping : Option (List (CStr × List (Cell × Cell))))
    (dcols : Option (List CStr)) :
    (remove_duplicates c subset).df.rows.length ≤ c.df.rows.length ∧
    (handle_missing_values c strategy).df.rows.length ≤ c.df.rows.length ∧
    (∀ c2, standardize_text_columns c = Except.ok c2 →
      c2.df.rows.length ≤ c.df.rows.length) ∧
    (clean_numeric_columns c).df.rows.length ≤ c.df.rows.length ∧
    (parse_dates c dcols).df.rows.length ≤ c.df.rows.length ∧
    (validate_ids c ids).df.rows.length ≤ c.df.rows.length ∧
    (standardize_categories c mapping).df.rows.length ≤ c.df.rows.length ∧
    (remove_extra_whitespace c).df.rows.length ≤ c.df.rows.length ∧
    (reset_index c).df.rows.length ≤ c.df.rows.length := by
  refine ⟨?_, ?_, ?_, ?_, ?_, ?_, ?_, ?_, Nat.le_refl _⟩
  · exact (dropDupAux_sublist _ [] c.df.rows).length_le
  · unfold handle_missing_values
    by_cases htot : countNaTable c.df.rows = 0
    · rw [if_pos htot]
    · rw [if_neg htot]
      cases strategy
      · exact Nat.le_of_eq (foldl_rows_eq autoStep autoStep_len _ _)
      · exact List.length_filter_le _ _
      · exact Nat.le_refl _
      · exact Nat.le_refl _
      · exact Nat.le_refl _
      · exact Nat.le_refl _
  · intro c2 h
    exact Nat.le_of_eq (stdFold_len _ c c2 h)
  · exact foldl_rows_le cleanStep cleanStep_len _ c
  · exact Nat.le_of_eq (foldl_rows_eq parseName parseName_len _ c)
  · rw [validate_ids_df]
  · cases mapping with
    | none => exact Nat.le_refl _
    | some ms => exact Nat.le_of_eq (foldl_rows_eq catStep catStep_len ms c)
  · exact Nat.le_of_eq (foldl_rows_eq wsStep
      (fun c0 j => mapCol_rows_length j collapseCell c0.df) _ c)

theorem claim_C8_no_row_insert_witness :
    (remove_duplicates c10ex none).df.rows.length ≤ c10ex.df.rows.length ∧
    c10res.df.rows.length ≤ c10ex.df.rows.length :=
  ⟨(claim_C8_no_row_insert c10ex Strategy.auto none none none none).1,
   (claim_C8_no_row_insert c10ex Strategy.auto none none none none).2.2.1 c10res rfl⟩

/-! ### Character-level lemmas for claim C6 -/

theorem isSpaceN_upN (n : Nat) : isSpaceN (upN n) = isSpaceN n := by
  unfold upN
  split
  · rename_i h
    have h1 : isSpaceN (n - 32) = false := by
      unfold isSpaceN
      simp only [Bool.or_eq_false_iff, beq_eq_false_iff_ne]
      omega
    have h2 : isSpaceN n = false := by
      unfold isSpaceN
      simp only [Bool.or_eq_false_iff, beq_eq_false_iff_ne]
      omega
    rw [h1, h2]
  · rfl

theorem isSpaceN_lowN (n : Nat) : isSpaceN (lowN n) = isSpaceN n := by
  unfold lowN
  split
  · rename_i h
    have h1 : isSpaceN (n + 32) = false := by
      unfold isSpaceN
      simp only [Bool.or_eq_false_iff, beq_eq_false_iff_ne]
      omega
    have h2 : isSpaceN n = false := by
      unfold isSpaceN
      simp only [Bool.or_eq_false_iff, beq_eq_false_iff_ne]
      omega
    rw [h1, h2]
  · rfl

theorem isAlphaN_upN (n : Nat) : isAlphaN (upN n) = isAlphaN n := by
  unfold upN
  split
  · rename_i h
    have h1 : isAlphaN (n - 32) = true := by
      unfold isAlphaN
      simp only [Bool.or_eq_true, Bool.and_eq_true, decide_eq_true_eq]
      omega
    have h2 : isAlphaN n = true := by
      unfold isAlphaN
      simp only [Bool.or_eq_true, Bool.and_eq_true, decide_eq_true_eq]
      omega
    rw [h1, h2]
  · rfl

theorem isAlphaN_lowN (n : Nat) : isAlphaN (lowN n) = isAlphaN n := by
  unfold lowN
  split
  · rename_i h
    have h1 : isAlphaN (n + 32) = true := by
      unfold isAlphaN
      simp only [Bool.or_eq_true, Bool.and_eq_true, decide_eq_true_eq]
      omega
    have h2 : isAlphaN n = true := by
      unfold isAlphaN
      simp only [Bool.or_eq_true, Bool.and_eq_true, decide_eq_true_eq]
      omega
    rw [h1, h2]
  · rfl

theorem upN_idem (n : Nat) : upN (upN n) = upN n := by
  by_cases h : 97 ≤ n ∧ n ≤ 122
  · have h3 : ¬ 97 ≤ n - 32 := by omega
    simp [upN, h.1, h.2, h3]
  · simp [upN, h]

theorem lowN_idem (n : Nat) : lowN (lowN n) = lowN n := by
  by_cases h : 65 ≤ n ∧ n ≤ 90
  · have h3 : ¬ n + 32 ≤ 90 := by omega
    simp [lowN, h.1, h.2, h3]
  · simp [lowN, h]

theorem titleAux_idem (s : CStr) : ∀ b, titleAux b (titleAux b s) = titleAux b s := by
  induction s with
  | nil => intro b; rfl
  | cons c rest ih =>
      intro b
      by_cases ha : isAlphaN c = true
      · cases b
        · have hd : isAlphaN (upN c) = true := by rw [isAlphaN_upN]; exact ha
          simp only [titleAux, ha, if_true, Bool.false_eq_true, if_false, hd]
          rw [upN_idem]
          have := ih true
          simp only [titleAux] at this ⊢
          rw [this]
        · have hd : isAlphaN (lowN c) = true := by rw [isAlphaN_lowN]; exact ha
          simp only [titleAux, ha, if_true, hd]
          rw [lowN_idem]
          have := ih true
          simp only [titleAux] at this ⊢
          rw [this]
      · simp only [titleAux, ha, Bool.false_eq_true, if_false]
        rw [ih false]

theorem titleAux_space_map (s : CStr) : ∀ b, (titleAux b s).map isSpaceN = s.map isSpaceN := by
  induction s with
  | nil => intro b; rfl
  | cons c rest ih =>
      intro b
      by_cases ha : isAlphaN c = true
      · cases b
        · simp only [titleAux, ha, if_true, Bool.false_eq_true, if_false, List.map_cons]
          rw [isSpaceN_upN, ih true]
        · simp only [titleAux, ha, if_true, List.map_cons]
          rw [isSpaceN_lowN, ih true]
      · simp only [titleAux, ha, Bool.false_eq_true, if_false, List.map_cons]
        rw [ih false]

/-! ### Strip-shape lemmas for claim C6 -/

theorem dropWhile_head_not {p : Nat → Bool} {l : CStr} {c : Nat}
    (h : (l.dropWhile p).head? = some c) : p c = false := by
  induction l with
  | nil => simp [List.dropWhile] at h
  | cons a rest ih =>
      rw [List.dropWhile_cons] at h
      by_cases hp : p a = true
      · rw [if_pos hp] at h
        exact ih h
      · rw [if_neg hp] at h
        simp only [List.head?_cons, Option.some.injEq] at h
        rw [← h]
        simpa using hp

theorem prefix_head {l1 l2 : CStr} {c : Nat} (h : l1 <+: l2)
    (hc : l1.head? = some c) : l2.head? = some c := by
  obtain ⟨u, rfl⟩ := h
  cases l1 with
  | nil => simp at hc
  | cons a t =>
      simp only [List.head?_cons, Option.some.injEq] at hc
      simp [hc]

theorem stripL_head {s : CStr} {c : Nat} (h : (stripL s).head? = some c) :
    isSpaceN c = false := by
  unfold stripL at h
  have hsuf : ((s.dropWhile isSpaceN).reverse.dropWhile isSpaceN)
      <:+ (s.dropWhile isSpaceN).reverse := List.dropWhile_suffix _
  have hpre : ((s.dropWhile isSpaceN).reverse.dropWhile isSpaceN).reverse
      <+: (s.dropWhile isSpaceN) := by
    have := hsuf.reverse
    rwa [List.reverse_reverse] at this
  exact dropWhile_head_not (prefix_head hpre h)

theorem stripL_last {s : CStr} {c : Nat} (h : (stripL s).reverse.head? = some c) :
    isSpaceN c = false := by
  unfold stripL at h
  rw [List.reverse_reverse] at h
  exact dropWhile_head_not h

theorem stripL_fix {s : CStr}
    (h1 : ∀ c, s.head? = some c → isSpaceN c = false)
    (h2 : ∀ c, s.reverse.head? = some c → isSpaceN c = false) :
    stripL s = s := by
  have hr : s.reverse.dropWhile isSpaceN = s.reverse := by
    cases hs : s.reverse with
    | nil => rfl
    | cons a t =>
        have hna : isSpaceN a = false := h2 a (by rw [hs]; rfl)
        rw [List.dropWhile_cons, if_neg (by simp [hna])]
  have hl : s.dropWhile isSpaceN = s := by
    cases s with
    | nil => rfl
    | cons a t =>
        have hna : isSpaceN a = false := h1 a rfl
        rw [List.dropWhile_cons, if_neg (by simp [hna])]
  unfold stripL
  rw [hl, hr, List.reverse_reverse]

theorem stripL_idem (s : CStr) : stripL (stripL s) = stripL s :=
  stripL_fix (fun c h => stripL_head h) (fun c h => stripL_last h)

theorem titleL_space_ends {s : CStr}
    (h1 : ∀ c, s.head? = some c → isSpaceN c = false)
    (h2 : ∀ c, s.reverse.head? = some c → isSpaceN c = false) :
    (∀ c, (titleL s).head? = some c → isSpaceN c = false) ∧
    (∀ c, (titleL s).reverse.head? = some c → isSpaceN c = false) := by
  have hmap : (titleL s).map isSpaceN = s.map isSpaceN := titleAux_space_map s false
  constructor
  · intro c hc
    have hh : ((titleL s).map isSpaceN).head? = some (isSpaceN c) := by
      rw [List.head?_map, hc]
      rfl
    rw [hmap, List.head?_map] at hh
    cases hs : s.head? with
    | none => rw [hs] at hh; simp at hh
    | some c0 =>
        rw [hs] at hh
        simp at hh
        rw [← hh]
        exact h1 c0 hs
  · intro c hc
    have hmapr : (titleL s).reverse.map isSpaceN = s.reverse.map isSpaceN := by
      rw [List.map_reverse, List.map_reverse, hmap]
    have hh : ((titleL s).reverse.map isSpaceN).head? = some (isSpaceN c) := by
      rw [List.head?_map, hc]
      rfl
    rw [hmapr, List.head?_map] at hh
    cases hs : s.reverse.head? with
    | none => rw [hs] at hh; simp at hh
    | some c0 =>
        rw [hs] at hh
        simp at hh
        rw [← hh]
        exact h2 c0 hs

theorem stripL_titleL_stripL (s : CStr) :
    stripL (titleL (stripL s)) = titleL (stripL s) := by
  have h := titleL_space_ends (s := stripL s)
    (fun c h => stripL_head h) (fun c h => stripL_last h)
  exact stripL_fix h.1 h.2

theorem titleL_idem (s : CStr) : titleL (titleL s) = titleL s := titleAux_idem s false

/-! ### Cell and column level lemmas for claim C6 -/

theorem stripCell_idem (c : Cell) : stripCell (stripCell c) = stripCell c := by
  cases c <;> simp [stripCell]
  exact stripL_idem _

theorem titleCell_idem (c : Cell) : titleCell (titleCell c) = titleCell c := by
  cases c <;> simp [titleCell]
  exact titleL_idem _

theorem stripCell_titleCell_stripCell (c : Cell) :
    stripCell (titleCell (stripCell c)) = titleCell (stripCell c) := by
  cases c <;> simp [stripCell, titleCell]
  exact stripL_titleL_stripL _

theorem titleCell_na_iff (c : Cell) : titleCell c = Cell.na ↔ c = Cell.na := by
  cases c <;> simp [titleCell]

theorem dedup_length_map_le (f : Cell → Cell) (l : List Cell) :
    (l.map f).dedup.length ≤ l.dedup.length := by
  rw [← List.card_toFinset, ← List.card_toFinset]
  have h : (l.map f).toFinset = l.toFinset.image f := by
    ext b
    simp [List.mem_toFinset, List.mem_map, Finset.mem_image]
  rw [h]
  exact Finset.card_image_le

theorem nuniqueCells_map_titleCell_le (l : List Cell) :
    nuniqueCells (l.map titleCell) ≤ nuniqueCells l := by
  unfold nuniqueCells
  have hcomm : (l.map titleCell).filter (fun c => decide (c ≠ Cell.na))
      = (l.filter (fun c => decide (c ≠ Cell.na))).map titleCell := by
    rw [List.filter_map]
    congr 1
    apply List.filter_congr
    intro x _
    simp [Function.comp, titleCell_na_iff]
  rw [hcomm]
  exact dedup_length_map_le titleCell _

theorem stdG_idem (n : Nat) (col : List Cell) : stdG n (stdG n col) = stdG n col := by
  have hstrip : ∀ m : List Cell, (m.map stripCell).map stripCell = m.map stripCell := by
    intro m
    rw [List.map_map]
    apply List.map_congr_left
    intro x _
    exact stripCell_idem x
  by_cases h : 2 * nuniqueCells (col.map stripCell) < n
  · have hres : stdG n col = (col.map stripCell).map titleCell := by
      unfold stdG
      rw [if_pos h]
    have htr2 : ((col.map stripCell).map titleCell).map stripCell
        = (col.map stripCell).map titleCell := by
      rw [List.map_map, List.map_map, List.map_map]
      apply List.map_congr_left
      intro x _
      exact stripCell_titleCell_stripCell x
    have hle : nuniqueCells (((col.map stripCell).map titleCell).map stripCell)
        ≤ nuniqueCells (col.map stripCell) := by
      rw [htr2]
      exact nuniqueCells_map_titleCell_le _
    have hlt : 2 * nuniqueCells ((stdG n col).map stripCell) < n := by
      rw [hres]
      omega
    rw [hres]
    unfold stdG
    rw [if_pos (by rw [← hres]; exact hlt), htr2]
    rw [List.map_map]
    have : ∀ x ∈ col.map stripCell, (titleCell ∘ titleCell) x = titleCell x := by
      intro x _
      exact titleCell_idem x
    rw [List.map_congr_left this, ← hres, hres]
  · have hres : stdG n col = col.map stripCell := by
      unfold stdG
      rw [if_neg h]
    rw [hres]
    unfold stdG
    rw [hstrip col, if_neg h]

theorem stdStepE_ok (c : Cleaner) (j : Nat) (h : c.df.rows.length ≠ 0) :
    stdStepE c j = .ok (stdStepP c j) := by
  unfold stdStepE stdStepP
  dsimp only []
  rw [if_neg (by rw [mapCol_rows_length]; exact h)]
  split
  · rfl
  · rfl

theorem stdStepP_len (c : Cleaner) (j : Nat) :
    (stdStepP c j).df.rows.length = c.df.rows.length := by
  unfold stdStepP
  dsimp only []
  split
  · simp [mapCol_rows_length]
  · simp [mapCol_rows_length]

theorem stdStepP_schema (c : Cleaner) (j : Nat) :
    (stdStepP c j).df.schema = c.df.schema := by
  unfold stdStepP
  dsimp only []
  split
  · rfl
  · rfl

theorem stdStepP_rect (c : Cleaner) (j : Nat) (hr : Rect c.df) :
    Rect (stdStepP c j).df := by
  unfold stdStepP
  dsimp only []
  split
  · exact rect_mapCol j titleCell (rect_mapCol j stripCell hr)
  · exact rect_mapCol j stripCell hr

theorem std_fold_ok (js : List Nat) :
    ∀ c : Cleaner, c.df.rows.length ≠ 0 →
      js.foldlM stdStepE c = .ok (js.foldl stdStepP c) := by
  induction js with
  | nil => intro c h; rfl
  | cons a rest ih =>
      intro c h
      rw [List.foldlM_cons, stdStepE_ok c a h]
      have h2 : (stdStepP c a).df.rows.length ≠ 0 := by
        rw [stdStepP_len]
        exact h
      have := ih (stdStepP c a) h2
      exact this

theorem stdStepP_frame (c : Cleaner) (j k : Nat) (hk : k ≠ j) :
    colAt k (stdStepP c j).df.rows = colAt k c.df.rows := by
  unfold stdStepP
  dsimp only []
  split
  · rw [colAt_mapCol_ne titleCell _ hk, colAt_mapCol_ne stripCell _ hk]
  · exact colAt_mapCol_ne stripCell _ hk

theorem stdStepP_self (c : Cleaner) (j : Nat) (hr : Rect c.df) (hj : j < width c.df) :
    colAt j (stdStepP c j).df.rows = stdG c.df.rows.length (colAt j c.df.rows) := by
  have h1 : colAt j (mapCol j stripCell c.df).rows
      = (colAt j c.df.rows).map stripCell := colAt_mapCol_self _ _ hr hj
  have hlen : (mapCol j stripCell c.df).rows.length = c.df.rows.length :=
    mapCol_rows_length _ _ _
  unfold stdStepP stdG
  dsimp only []
  rw [h1, hlen]
  split
  · rw [colAt_mapCol_self _ _ (rect_mapCol j stripCell hr)
      (by rw [width, mapCol_schema]; exact hj), h1]
  · exact h1

theorem stdStepP_log (c : Cleaner) (j : Nat) (hr : Rect c.df) (hj : j < width c.df) :
    (stdStepP c j).log = c.log ++
      (if 2 * nuniqueCells ((colAt j c.df.rows).map stripCell) < c.df.rows.length
       then [Msg.standardizedText (nameAt c.df j)] else []) := by
  have h1 : colAt j (mapCol j stripCell c.df).rows
      = (colAt j c.df.rows).map stripCell := colAt_mapCol_self _ _ hr hj
  have hlen : (mapCol j stripCell c.df).rows.length = c.df.rows.length :=
    mapCol_rows_length _ _ _
  have hnm : nameAt (mapCol j stripCell c.df) j = nameAt c.df j := by
    unfold nameAt
    rw [mapCol_schema]
  unfold stdStepP
  dsimp only []
  rw [h1, hlen, hnm]
  split
  · rfl
  · simp

/-! ### Claim C6: idempotence of standardize_text_columns -/

theorem table_eq (t1 t2 : Table) (hs : t1.schema = t2.schema) (hr : t1.rows = t2.rows) :
    t1 = t2 := by
  cases t1
  cases t2
  simp_all

/-- Claim C6: when standardize_text_columns succeeds, running it again
succeeds as well and leaves the table data unchanged: the trim pass, the
ratio test and the conditional title-casing form an idempotent
transformation of the table. -/
theorem claim_C6_std_idempotent (c c2 : Cleaner) (hrect : Rect c.df)
    (h : standardize_text_columns c = Except.ok c2) :
    ∃ c3, standardize_text_columns c2 = Except.ok c3 ∧ c3.df = c2.df := by
  by_cases hn : c.df.rows.length = 0
  · cases hjs : objIdxs c.df.schema with
    | cons a rest =>
        have herr := std_empty_error c (List.length_eq_zero.mp hn) (by rw [hjs]; simp)
        rw [herr] at h
        exact Except.noConfusion h
    | nil =>
        have hc2 : c2 = c := by
          unfold standardize_text_columns at h
          rw [hjs] at h
          cases h
          rfl
        subst hc2
        refine ⟨c2, ?_, rfl⟩
        unfold standardize_text_columns
        rw [hjs]
        rfl
  · have hok := std_fold_ok (objIdxs c.df.schema) c hn
    unfold standardize_text_columns at h
    rw [hok] at h
    have hc2 : c2 = (objIdxs c.df.schema).foldl stdStepP c := by
      cases h
      rfl
    have hspec1 := opFold_spec stdStepP
      (fun c0 => Rect c0.df ∧ c0.df.schema = c.df.schema ∧
        c0.df.rows.length = c.df.rows.length)
      (fun _ col => stdG c.df.rows.length col)
      (fun i col => if 2 * nuniqueCells (col.map stripCell) < c.df.rows.length
        then [Msg.standardizedText (nameAt c.df i)] else [])
      (objIdxs c.df.schema)
      (fun c0 i h0 _ => ⟨stdStepP_rect c0 i h0.1,
        (stdStepP_schema c0 i).trans h0.2.1, (stdStepP_len c0 i).trans h0.2.2⟩)
      (fun c0 i k h0 _ hk => stdStepP_frame c0 i k hk)
      (fun c0 i h0 hi => by
        have hw : i < width c0.df := by
          rw [width, h0.2.1]
          exact (mem_objIdxs hi).1
        rw [stdStepP_self c0 i h0.1 hw, h0.2.2])
      (fun c0 i h0 hi => by
        have hw : i < width c0.df := by
          rw [width, h0.2.1]
          exact (mem_objIdxs hi).1
        have hnm : nameAt c0.df i = nameAt c.df i := by
          unfold nameAt
          rw [h0.2.1]
        rw [stdStepP_log c0 i h0.1 hw, h0.2.2, hnm])
      (objIdxs_nodup _) c ⟨hrect, rfl, rfl⟩
    obtain ⟨g1, g2, _, hP2⟩ := hspec1
    rw [← hc2] at g1 g2 hP2
    obtain ⟨hrect2, hschema2, hlen2⟩ := hP2
    have hn2 : c2.df.rows.length ≠ 0 := by rw [hlen2]; exact hn
    have hjs2 : objIdxs c2.df.schema = objIdxs c.df.schema := by rw [hschema2]
    have hok2 : standardize_text_columns c2
        = Except.ok ((objIdxs c.df.schema).foldl stdStepP c2) := by
      unfold standardize_text_columns
      rw [hjs2]
      exact std_fold_ok (objIdxs c.df.schema) c2 hn2
    have hspec2 := opFold_spec stdStepP
      (fun c0 => Rect c0.df ∧ c0.df.schema = c.df.schema ∧
        c0.df.rows.length = c.df.rows.length)
      (fun _ col => stdG c.df.rows.length col)
      (fun i col => if 2 * nuniqueCells (col.map stripCell) < c.df.rows.length
        then [Msg.standardizedText (nameAt c.df i)] else [])
      (objIdxs c.df.schema)
      (fun c0 i h0 _ => ⟨stdStepP_rect c0 i h0.1,
        (stdStepP_schema c0 i).trans h0.2.1, (stdStepP_len c0 i).trans h0.2.2⟩)
      (fun c0 i k h0 _ hk => stdStepP_frame c0 i k hk)
      (fun c0 i h0 hi => by
        have hw : i < width c0.df := by
          rw [width, h0.2.1]
          exact (mem_objIdxs hi).1
        rw [stdStepP_self c0 i h0.1 hw, h0.2.2])
      (fun c0 i h0 hi => by
        have hw : i < width c0.df := by
          rw [width, h0.2.1]
          exact (mem_objIdxs hi).1
        have hnm : nameAt c0.df i = nameAt c.df i := by
          unfold nameAt
          rw [h0.2.1]
        rw [stdStepP_log c0 i h0.1 hw, h0.2.2, hnm])
      (objIdxs_nodup _) c2 ⟨hrect2, hschema2, hlen2⟩
    obtain ⟨k1, k2, _, kP⟩ := hspec2
    refine ⟨(objIdxs c.df.schema).foldl stdStepP c2, hok2, ?_⟩
    apply table_eq
    · rw [kP.2.1, hschema2]
    · apply rows_ext (w := c.df.schema.length)
      · rw [kP.2.2, hlen2]
      · intro r hr
        have := kP.1 r hr
        rw [this, kP.2.1]
      · intro r hr
        have := hrect2 r hr
        rw [this, hschema2]
      · intro j hj
        by_cases hmem : j ∈ objIdxs c.df.schema
        · rw [k1 j hmem, g1 j hmem]
          exact stdG_idem _ _
        · exact k2 j hmem

theorem claim_C6_std_idempotent_witness :
    ∃ c3, standardize_text_columns c6res = Except.ok c3 ∧ c3.df = c6res.df :=
  claim_C6_std_idempotent c6wex c6res
    (by intro r hr; fin_cases hr <;> rfl) (by rfl)

end FacilityClean
